import Mathlib

/-!
Verification of the file-ingestion-and-normalization pipeline of a personal
finance dashboard.  The development shallowly embeds the TypeScript sources:

  * `src/lib/file-parsers.ts`      — amount/date normalizers, CSV ingestor
  * `src/app/api/parse-pdf/route.ts` — statement-table (PDF text) ingestor
  * `src/lib/transaction-categorizer.ts` — categorization engine

Modelling conventions:
  * strings are `List Char` (`Str`); JavaScript string helpers (`trim`,
    `includes`, `toLowerCase`, `split`) are embedded as list functions;
  * monetary values are `ℚ` (the sources manipulate exact decimal literals;
    IEEE rounding is irrelevant to the verified properties);
  * `new Date(...).toISOString().split('T')[0]` is modelled at UTC offset 0
    with the proleptic Gregorian calendar (civil-from-days / days-from-civil);
  * thrown exceptions are `Except Str`;
  * the remote classification call and the CSV-library record step are the
    module boundaries: they enter as explicit parameters
    (`RemoteOutcome`, header list + row lists).
-/

/-- Strings of the embedded programs, as lists of characters. -/
abbrev Str := List Char

/-- Literal helper: the character list of a Lean string literal. -/
def str (s : String) : Str := s.data

/-- The whitespace class of JavaScript `\s` / `String.prototype.trim`,
restricted to the characters that can actually occur in the pipeline's
inputs (ASCII whitespace and no-break space). -/
def isJsSpace (c : Char) : Bool :=
  c = ' ' || c = '\t' || c = '\n' || c = '\r' ||
  c = Char.ofNat 11 || c = Char.ofNat 12 || c = Char.ofNat 160

/-- JavaScript `String.prototype.trim`. -/
def trim (l : Str) : Str :=
  ((l.dropWhile isJsSpace).reverse.dropWhile isJsSpace).reverse

/-- ASCII lower-casing of one character (`String.prototype.toLowerCase`;
the inputs of the pipeline are ASCII). -/
def lowerCh (c : Char) : Char :=
  if 'A' ≤ c ∧ c ≤ 'Z' then Char.ofNat (c.toNat + 32) else c

/-- JavaScript `String.prototype.toLowerCase` on ASCII text. -/
def lowerStr (l : Str) : Str := l.map lowerCh

/-- Does `n` occur at the start of `h`? (helper for the substring test). -/
def leadsWith : Str → Str → Bool
  | [], _ => true
  | _ :: _, [] => false
  | a :: as, b :: bs => a = b && leadsWith as bs

/-- JavaScript `String.prototype.includes`: `n` occurs contiguously in `h`. -/
def isSubstr : Str → Str → Bool
  | n, [] => n.isEmpty
  | n, c :: t => leadsWith n (c :: t) || isSubstr n t

/-- `Array.prototype.join(sep)` over a list of strings. -/
def joinSep (sep : Str) : List Str → Str
  | [] => []
  | [b] => b
  | b :: b2 :: bs => b ++ sep ++ joinSep sep (b2 :: bs)

/-- Numeric value of a decimal digit character. -/
def digitVal (c : Char) : Nat := c.toNat - 48

/-- Value of a string of decimal digits (also JavaScript `parseInt` on an
all-digit string). -/
def natOfDigits (ds : Str) : Nat := ds.foldl (fun a c => 10 * a + digitVal c) 0

/-- The character of a single decimal digit. -/
def digitChar (n : Nat) : Char := Char.ofNat (48 + n)

/-- Canonical decimal rendering of a natural number, fueled so that it
reduces in the kernel (the fuel is always sufficient: each step divides the
argument by ten). -/
def natDigitsF : Nat → Nat → Str
  | 0, _ => []
  | fuel + 1, n =>
    if n < 10 then [digitChar n]
    else natDigitsF fuel (n / 10) ++ [digitChar (n % 10)]

/-- Canonical decimal rendering of a natural number (as JavaScript `String(n)`
for naturals). -/
def natDigits (n : Nat) : Str := natDigitsF (n + 1) n

/-! ### Amount Normalizer (`parseAmount`, identical in
`src/lib/file-parsers.ts` and `src/app/api/parse-pdf/route.ts`) -/

/-- Characters removed by `parseAmount`'s two `replace` calls:
currency symbols, commas, whitespace, and parentheses. -/
def isStripped (c : Char) : Bool :=
  c = '$' || c = '£' || c = '€' || c = '¥' || c = ',' || isJsSpace c ||
  c = '(' || c = ')'

/-- An exact decimal value `(m, s)` denoting `m / 10 ^ s`.  Parsed numbers
are carried in this form because `ℚ`'s arithmetic does not reduce inside the
kernel; `ratOfDec` gives the denoted rational. -/
abbrev Dec := Int × Nat

/-- The rational denoted by an exact decimal. -/
def ratOfDec (p : Dec) : ℚ := (p.1 : ℚ) / (10 : ℚ) ^ p.2

/-- Sign prefix handling of JavaScript `parseFloat` (also of its exponent
part): `-1` or `1` and the remainder. -/
def jsSign : Str → Int × Str
  | [] => (1, [])
  | c :: t => if c = '-' then (-1, t) else if c = '+' then (1, t) else (1, c :: t)

/-- Exponent suffix of JavaScript `parseFloat` (`e`/`E` followed by an
optionally signed digit run; ignored when no digit follows).  A positive
exponent multiplies the mantissa, a negative one deepens the scale. -/
def jsExpTail (base : Dec) (t : Str) : Dec :=
  let sg := jsSign t
  let ds := sg.2.takeWhile Char.isDigit
  if ds = [] then base
  else if 0 ≤ sg.1 then (base.1 * (10 : Int) ^ natOfDigits ds, base.2)
  else (base.1, base.2 + natOfDigits ds)

/-- Optional exponent of JavaScript `parseFloat`. -/
def jsExp (base : Dec) : Str → Dec
  | 'e' :: t => jsExpTail base t
  | 'E' :: t => jsExpTail base t
  | _ => base

/-- JavaScript `parseFloat`: leading whitespace, optional sign, integer
digits, optional fraction, optional exponent; the longest valid prefix is
converted, `none` models `NaN`.  The result denotes
`±(ip.fp) × 10^(±e)` as an exact decimal. -/
def jsParseFloat (s : Str) : Option Dec :=
  let s1 := s.dropWhile isJsSpace
  let sg := jsSign s1
  let ip := sg.2.takeWhile Char.isDigit
  let s3 := sg.2.dropWhile Char.isDigit
  let fp := match s3 with
    | '.' :: t => (t.takeWhile Char.isDigit, t.dropWhile Char.isDigit)
    | t => ([], t)
  if ip = [] ∧ fp.1 = [] then none
  else
    some (jsExp
      (sg.1 * ((natOfDigits ip : Int) * (10 : Int) ^ fp.1.length + (natOfDigits fp.1 : Int)),
       fp.1.length) fp.2)

/-- `parseAmount(value)` as an exact decimal: strip currency symbols,
commas, whitespace and parentheses, `parseFloat` the remainder
(`NaN` ↦ `0`), and force the mantissa negative when both `(` and `)`
occurred in the original string (`-Math.abs`).  Empty or whitespace-only
input yields `0`. -/
def parseAmountDec (value : Str) : Dec :=
  if value.all isJsSpace then (0, 0)
  else
    let cleanValue := value.filter (fun c => !(isStripped c))
    let isNegativeParens := value.contains '(' && value.contains ')'
    match jsParseFloat cleanValue with
    | none => (0, 0)
    | some v => if isNegativeParens then (-(v.1.natAbs : Int), v.2) else v

/-- `parseAmount(value)` as the rational number it denotes. -/
def parseAmount (value : Str) : ℚ := ratOfDec (parseAmountDec value)

/-! Specification-side description of a decorated decimal numeral: an
optional minus sign, digit blocks joined by comma thousands separators, and
an optional fraction part; `numeralVal` is its mathematical value. -/

/-- The undecorated text of the numeral (sign, comma-separated digit blocks,
optional fraction). -/
def numeralStr (neg : Bool) (blocks : List Str) (fr : Option Str) : Str :=
  (if neg then ['-'] else []) ++ joinSep [','] blocks ++
    (match fr with | some f => '.' :: f | none => [])

/-- The mathematical value of the numeral: the comma-free digit string read
positionally, plus the fraction, with the sign applied. -/
def numeralVal (neg : Bool) (blocks : List Str) (fr : Option Str) : ℚ :=
  (if neg then -1 else 1) *
    ((natOfDigits blocks.flatten : ℚ) +
      (natOfDigits ((fr.getD [])) : ℚ) / (10 : ℚ) ^ (fr.getD []).length)

/-- Decoration characters a decorated amount may carry around the numeral:
currency symbols, whitespace, commas. -/
def isDeco (c : Char) : Bool :=
  c = '$' || c = '£' || c = '€' || c = '¥' || c = ',' || isJsSpace c

/-- The comma-free core of the numeral: sign, concatenated digit blocks,
optional fraction.  This is what stripping the decorations of
`numeralStr neg blocks fr` leaves behind. -/
def coreStr (neg : Bool) (blocks : List Str) (fr : Option Str) : Str :=
  (if neg then ['-'] else []) ++ blocks.flatten ++
    (match fr with | some f => '.' :: f | none => [])

/-! ### Calendar model (`new Date(y, m, d)` / `toISOString` at UTC) -/

/-- Day count of a civil date (Hinnant's `days_from_civil`), for a month
in `1..12`; day 1 of March 1 of year 0 style era arithmetic. -/
def daysFromCivil (y m d : Int) : Int :=
  let y1 := y - (if m ≤ 2 then 1 else 0)
  let era := Int.fdiv y1 400
  let yoe := y1 - era * 400
  let mp := m + (if 2 < m then -3 else 9)
  let doy := Int.fdiv (153 * mp + 2) 5 + d - 1
  let doe := yoe * 365 + Int.fdiv yoe 4 - Int.fdiv yoe 100 + doy
  era * 146097 + doe - 719468

/-- Civil date of a day count (Hinnant's `civil_from_days`). -/
def civilFromDays (z0 : Int) : Int × Int × Int :=
  let z := z0 + 719468
  let era := Int.fdiv z 146097
  let doe := z - era * 146097
  let yoe := Int.fdiv (doe - Int.fdiv doe 1460 + Int.fdiv doe 36524 - Int.fdiv doe 146096) 365
  let y := yoe + era * 400
  let doy := doe - (365 * yoe + Int.fdiv yoe 4 - Int.fdiv yoe 100)
  let mp := Int.fdiv (5 * doy + 2) 153
  let d := doy - Int.fdiv (153 * mp + 2) 5 + 1
  let m := mp + (if mp < 10 then 3 else -9)
  (y + (if m ≤ 2 then 1 else 0), m, d)

/-- Zero-padded two-digit rendering (month/day of `toISOString`). -/
def pad2 (n : Int) : Str :=
  let s := natDigits n.toNat
  if s.length < 2 then '0' :: s else s

/-- Zero-padded four-digit rendering (year of `toISOString`). -/
def pad4 (n : Int) : Str :=
  let s := natDigits n.toNat
  List.replicate (4 - s.length) '0' ++ s

/-- `new Date(y, m-1, d).toISOString().split('T')[0]` at UTC: month and day
overflow is normalized by day arithmetic, the civil date is rendered
`YYYY-MM-DD`.  (`m` is the 1-based month, possibly out of range.) -/
def mkDateISO (y m d : Int) : Str :=
  let y1 := y + Int.fdiv (m - 1) 12
  let m1 := Int.fmod (m - 1) 12 + 1
  let c := civilFromDays (daysFromCivil y1 m1 1 + (d - 1))
  pad4 c.1 ++ '-' :: pad2 c.2.1 ++ '-' :: pad2 c.2.2

/-- The numeric `Date` constructor `new Date(year, month-1, day)`, including
its mapping of two-digit years onto 1900–1999, rendered as an ISO date. -/
def jsDateCtorISO (y m d : Int) : Str :=
  mkDateISO (if 0 ≤ y ∧ y ≤ 99 then y + 1900 else y) m d

/-- JavaScript `String.prototype.split(sep)` for a one-character separator. -/
def splitCh (sep : Char) : Str → List Str
  | [] => [[]]
  | c :: t =>
    if c = sep then [] :: splitCh sep t
    else
      match splitCh sep t with
      | h :: r => (c :: h) :: r
      | [] => [[c]]

/-- Leap-year test of the Gregorian calendar. -/
def isLeap (y : Int) : Bool :=
  (y % 4 = 0 ∧ y % 100 ≠ 0) ∨ y % 400 = 0

/-- Days in a month of the Gregorian calendar. -/
def daysInMonth (y m : Int) : Int :=
  if m = 2 then (if isLeap y then 29 else 28)
  else if m = 4 ∨ m = 6 ∨ m = 9 ∨ m = 11 then 30
  else 31

/-- Model of `new Date(string)` (V8, at UTC) on the numeric date formats the
pipeline feeds it: `M/D/Y` (US order, month 1–12, day 1–31, two-digit years
pivoting at 50) and `Y-M-D` (validated against the month length).  Month-name
and time-of-day formats are not modelled: no input of the repository's
pipeline uses them.  Returns the (possibly day-overflowing) civil triple. -/
def jsNewDate (s : Str) : Option (Int × Int × Int) :=
  match splitCh '/' s with
  | [p1, p2, p3] =>
    if p1.all Char.isDigit ∧ p2.all Char.isDigit ∧ p3.all Char.isDigit ∧
       1 ≤ p1.length ∧ p1.length ≤ 2 ∧ 1 ≤ p2.length ∧ p2.length ≤ 2 ∧
       1 ≤ p3.length ∧ p3.length ≤ 4 then
      let m := natOfDigits p1
      let d := natOfDigits p2
      let yv := natOfDigits p3
      let y : Int := if p3.length ≤ 2 then (if yv < 50 then 2000 + yv else 1900 + yv) else yv
      if 1 ≤ m ∧ m ≤ 12 ∧ 1 ≤ d ∧ d ≤ 31 then some (y, m, d) else none
    else none
  | _ =>
    match splitCh '-' s with
    | [q1, q2, q3] =>
      if q1.all Char.isDigit ∧ q2.all Char.isDigit ∧ q3.all Char.isDigit ∧
         q1.length = 4 ∧ 1 ≤ q2.length ∧ q2.length ≤ 2 ∧ 1 ≤ q3.length ∧ q3.length ≤ 2 then
        let y : Int := natOfDigits q1
        let m : Int := natOfDigits q2
        let d : Int := natOfDigits q3
        if 1 ≤ m ∧ m ≤ 12 ∧ 1 ≤ d ∧ d ≤ daysInMonth y m then some (y, m, d) else none
      else none
    | _ => none

/-- Ambient date context: `new Date()`'s current year (for two-digit year
expansion) and today's ISO date (the documented fallback). -/
structure DateCtx where
  todayISO : Str
  currentYear : Nat

/-- Match of the slashed manual format `^(\d{1,2})\/(\d{1,2})\/(\d{2,4})$`
(the identical first two regexes of `parseDate`'s format table).  Returns the
numeric first two components and the raw year text. -/
def matchSlashFmt (s : Str) : Option (Nat × Nat × Str) :=
  match splitCh '/' s with
  | [p1, p2, p3] =>
    if p1.all Char.isDigit ∧ p2.all Char.isDigit ∧ p3.all Char.isDigit ∧
       1 ≤ p1.length ∧ p1.length ≤ 2 ∧ 1 ≤ p2.length ∧ p2.length ≤ 2 ∧
       2 ≤ p3.length ∧ p3.length ≤ 4 then
      some (natOfDigits p1, natOfDigits p2, p3)
    else none
  | _ => none

/-- Match of `^(\d{4})-(\d{1,2})-(\d{1,2})$` (third format of the table). -/
def matchIsoFmt (s : Str) : Option (Nat × Nat × Nat) :=
  match splitCh '-' s with
  | [p1, p2, p3] =>
    if p1.all Char.isDigit ∧ p2.all Char.isDigit ∧ p3.all Char.isDigit ∧
       p1.length = 4 ∧ 1 ≤ p2.length ∧ p2.length ≤ 2 ∧ 1 ≤ p3.length ∧ p3.length ≤ 2 then
      some (natOfDigits p1, natOfDigits p2, natOfDigits p3)
    else none
  | _ => none

/-- Match of `^(\d{1,2})-(\d{1,2})-(\d{2,4})$` (fourth format of the table). -/
def matchDashFmt (s : Str) : Option (Nat × Nat × Str) :=
  match splitCh '-' s with
  | [p1, p2, p3] =>
    if p1.all Char.isDigit ∧ p2.all Char.isDigit ∧ p3.all Char.isDigit ∧
       1 ≤ p1.length ∧ p1.length ≤ 2 ∧ 1 ≤ p2.length ∧ p2.length ≤ 2 ∧
       2 ≤ p3.length ∧ p3.length ≤ 4 then
      some (natOfDigits p1, natOfDigits p2, p3)
    else none
  | _ => none

/-- Shared tail of the ambiguous (non-`YYYY`-first) manual formats: expand a
two-digit year with the current century, disambiguate month versus day by
magnitude (first component `> 12` ⇒ it is the day; else if second `> 12` ⇒
first is the month; else default to `MM/DD`), and build the date with the
numeric constructor.  (`new Date(y, m, d)` is only invalid far outside any
reachable range, so the code's `isNaN` re-check never fires and is dropped.) -/
def finishAmbiguous (ctx : DateCtx) (a b : Nat) (yraw : Str) : Str :=
  let year : Int := if yraw.length = 2
    then ((ctx.currentYear / 100) * 100 + natOfDigits yraw : Nat)
    else (natOfDigits yraw : Nat)
  let md : Int × Int :=
    if 12 < a then ((b : Int), (a : Int))
    else if 12 < b then ((a : Int), (b : Int))
    else ((a : Int), (b : Int))
  jsDateCtorISO year md.1 md.2

/-- `parseDate` of `src/lib/file-parsers.ts`: empty input falls back to
today; otherwise the `Date` constructor is tried on the trimmed string, then
the manual format table in order (slashed, `YYYY-MM-DD`, dashed), then the
current date as final fallback. -/
def parseDate (ctx : DateCtx) (dateStr : Str) : Str :=
  if dateStr = [] then ctx.todayISO
  else
    let cleanDate := trim dateStr
    match jsNewDate cleanDate with
    | some (y, m, d) => mkDateISO y m d
    | none =>
      match matchSlashFmt cleanDate with
      | some (a, b, yraw) => finishAmbiguous ctx a b yraw
      | none =>
        match matchIsoFmt cleanDate with
        | some (y, m, d) => jsDateCtorISO (y : Int) (m : Int) (d : Int)
        | none =>
          match matchDashFmt cleanDate with
          | some (a, b, yraw) => finishAmbiguous ctx a b yraw
          | none => ctx.todayISO

/-- Match of `^(\d{1,2})\/(\d{1,2})\/(\d{4})$` (the statement ingestor's
only manual date format). -/
def matchSlashFmt4 (s : Str) : Option (Nat × Nat × Nat) :=
  match splitCh '/' s with
  | [p1, p2, p3] =>
    if p1.all Char.isDigit ∧ p2.all Char.isDigit ∧ p3.all Char.isDigit ∧
       1 ≤ p1.length ∧ p1.length ≤ 2 ∧ 1 ≤ p2.length ∧ p2.length ≤ 2 ∧
       p3.length = 4 then
      some (natOfDigits p1, natOfDigits p2, natOfDigits p3)
    else none
  | _ => none

/-- `parseDate` of `src/app/api/parse-pdf/route.ts`: `Date` constructor on
the trimmed string, then strict `MM/DD/YYYY` (first component always the
month), then today. -/
def parseDatePdf (ctx : DateCtx) (dateStr : Str) : Str :=
  let cleanDate := trim dateStr
  match jsNewDate cleanDate with
  | some (y, m, d) => mkDateISO y m d
  | none =>
    match matchSlashFmt4 cleanDate with
    | some (m, d, y) => jsDateCtorISO (y : Int) (m : Int) (d : Int)
    | none => ctx.todayISO

/-! ### Data model -/

/-- Explicit debit/credit marker of a transaction. -/
inductive TxType where
  | debit | credit
deriving DecidableEq, Repr

/-- `RawTransaction`, the canonical intermediate record of an ingestor.  The
`merchant` field (a best-effort heuristic with no verified property) and the
unused `reference`/`category` fields are not modelled. -/
structure RawTransaction where
  date : Str
  description : Str
  amount : ℚ
  balance : Option ℚ := none
  txType : Option TxType := none
deriving DecidableEq, Repr

/-- `ParsedFileResult`, the ingestor output contract (metadata inlined). -/
structure ParsedFileResult where
  transactions : List RawTransaction
  totalAmount : ℚ
  dateStart : Str
  dateEnd : Str
  errors : List Str
  rowCount : Nat
  originalFilename : Str
  parsedAt : Str
deriving DecidableEq, Repr

/-- JavaScript default `Array.prototype.sort` string order (code-unit
lexicographic comparison). -/
def lexLe : Str → Str → Bool
  | [], _ => true
  | _ :: _, [] => false
  | a :: as, b :: bs =>
    if a.toNat < b.toNat then true
    else if b.toNat < a.toNat then false
    else lexLe as bs

/-- The sorted-order relation used for the date range. -/
def dateLe (a b : Str) : Prop := lexLe a b = true

instance : DecidableRel dateLe := fun a b => instDecidableEqBool (lexLe a b) true

/-- `dates.sort()` of the aggregate-statistics step. -/
def sortDates (l : List Str) : List Str := List.insertionSort dateLe l

/-! ### Categorization engine (`src/lib/transaction-categorizer.ts`) -/

/-- Provenance of a category assignment. -/
inductive CatSource where
  | ai | rules | manual
deriving DecidableEq, Repr

/-- `CategoryResult` of the rule matcher. -/
structure CategoryResult where
  category : Str
  subcategory : Option Str
  confidence : ℚ
  source : CatSource
deriving DecidableEq, Repr

/-- `CategorizedTransaction` = `RawTransaction` + category assignment. -/
structure CategorizedTransaction extends RawTransaction where
  category : Str
  subcategory : Option Str
  confidence : ℚ
  categorySource : CatSource
deriving DecidableEq, Repr

/-- One entry of the keyword-rule table (the rule ids of the source object
are never read by the matching code and are dropped). -/
structure CatRule where
  category : Str
  subcategory : Option Str := none
  keywords : List Str
deriving DecidableEq, Repr

/-- `CATEGORIZATION_RULES`, in declaration order (string-keyed object
iteration order in JavaScript). -/
def CATEGORIZATION_RULES : List CatRule := [
  ⟨str "Food & Dining", some (str "Restaurants"),
    [str "restaurant", str "mcdonald", str "burger", str "pizza", str "starbucks",
     str "coffee", str "cafe", str "diner", str "food", str "grubhub",
     str "doordash", str "ubereats"]⟩,
  ⟨str "Food & Dining", some (str "Groceries"),
    [str "grocery", str "supermarket", str "walmart", str "target", str "kroger",
     str "safeway", str "whole foods", str "trader joe"]⟩,
  ⟨str "Transport", some (str "Gas & Fuel"),
    [str "gas", str "fuel", str "shell", str "exxon", str "chevron", str "bp",
     str "mobil", str "station"]⟩,
  ⟨str "Transport", some (str "Parking & Tolls"),
    [str "parking", str "toll", str "meter", str "garage"]⟩,
  ⟨str "Transport", some (str "Public Transportation"),
    [str "metro", str "subway", str "bus", str "train", str "uber", str "lyft",
     str "taxi", str "transit"]⟩,
  ⟨str "Entertainment", none,
    [str "movie", str "theater", str "cinema", str "netflix", str "spotify",
     str "hulu", str "disney", str "gaming", str "concert", str "tickets"]⟩,
  ⟨str "Shopping", none,
    [str "amazon", str "ebay", str "store", str "retail", str "shop",
     str "purchase", str "buy"]⟩,
  ⟨str "Bills & Utilities", some (str "Electricity"),
    [str "electric", str "power", str "utility", str "pge", str "edison"]⟩,
  ⟨str "Bills & Utilities", some (str "Gas"),
    [str "gas company", str "natural gas"]⟩,
  ⟨str "Bills & Utilities", some (str "Water"),
    [str "water", str "sewer"]⟩,
  ⟨str "Bills & Utilities", some (str "Phone"),
    [str "verizon", str "att", str "t-mobile", str "sprint", str "phone",
     str "cellular", str "wireless"]⟩,
  ⟨str "Bills & Utilities", some (str "Internet"),
    [str "comcast", str "xfinity", str "internet", str "broadband", str "wifi"]⟩,
  ⟨str "Healthcare", some (str "Medical"),
    [str "doctor", str "hospital", str "clinic", str "medical", str "pharmacy",
     str "cvs", str "walgreens"]⟩,
  ⟨str "Healthcare", some (str "Dental"),
    [str "dental", str "dentist", str "orthodont"]⟩,
  ⟨str "Education", none,
    [str "school", str "university", str "college", str "tuition",
     str "education", str "course", str "textbook"]⟩,
  ⟨str "Travel", some (str "Accommodation"),
    [str "hotel", str "motel", str "airbnb", str "booking", str "expedia",
     str "lodging"]⟩,
  ⟨str "Travel", some (str "Transportation"),
    [str "airline", str "flight", str "airport", str "rental car", str "hertz",
     str "avis"]⟩,
  ⟨str "Personal Care", none,
    [str "salon", str "spa", str "haircut", str "barber", str "cosmetic",
     str "beauty"]⟩,
  ⟨str "Home & Garden", none,
    [str "home depot", str "lowes", str "hardware", str "garden",
     str "furniture", str "appliance"]⟩,
  ⟨str "Insurance", some (str "Auto"),
    [str "auto insurance", str "car insurance", str "geico", str "state farm",
     str "progressive"]⟩,
  ⟨str "Insurance", some (str "Health"),
    [str "health insurance", str "medical insurance"]⟩,
  ⟨str "Insurance", some (str "Home"),
    [str "home insurance", str "homeowner", str "property insurance"]⟩,
  ⟨str "Salary", none,
    [str "salary", str "paycheck", str "wages", str "payroll",
     str "direct deposit", str "employer"]⟩,
  ⟨str "Freelance", none,
    [str "freelance", str "contractor", str "consulting", str "gig",
     str "upwork", str "fiverr"]⟩,
  ⟨str "Investment", none,
    [str "dividend", str "interest", str "investment", str "stock", str "bond",
     str "mutual fund", str "etf"]⟩,
  ⟨str "Business Income", none,
    [str "business", str "revenue", str "sales", str "client payment"]⟩,
  ⟨str "Other Expenses", some (str "ATM Fees"),
    [str "atm fee", str "withdrawal fee", str "foreign transaction"]⟩,
  ⟨str "Home & Garden", some (str "Rent"),
    [str "rent", str "lease", str "housing", str "apartment", str "mortgage"]⟩]

/-- Inner keyword loop of `categorizeWithRules`: does some keyword occur in
the lower-cased description? -/
def kwLoop (lowerDesc : Str) : List Str → Bool
  | [] => false
  | k :: ks => if isSubstr (lowerStr k) lowerDesc then true else kwLoop lowerDesc ks

/-- Outer rule loop of `categorizeWithRules`: first rule with a matching
keyword wins, yielding confidence 0.8 and source `rules`. -/
def ruleLoop (lowerDesc : Str) : List CatRule → Option CategoryResult
  | [] => none
  | r :: rs =>
    if kwLoop lowerDesc r.keywords then some ⟨r.category, r.subcategory, 8/10, .rules⟩
    else ruleLoop lowerDesc rs

/-- `categorizeWithRules(description)`: deterministic keyword-rule matching
with the default "Other Expenses" / 0.3 / `rules` result. -/
def categorizeWithRules (description : Str) : CategoryResult :=
  match ruleLoop (lowerStr description) CATEGORIZATION_RULES with
  | some r => r
  | none => ⟨str "Other Expenses", none, 3/10, .rules⟩

/-- Outcome of the remote classification call as observed inside
`categorizeWithAI`'s `try` block: `failing` covers both a thrown fetch error
and a non-success HTTP status (the code raises on `!response.ok`); `ok cats`
is a resolved response whose body yielded the list `cats`
(`result.categories || []`). -/
inductive RemoteOutcome where
  | failing
  | ok (categories : List Str)

/-- `categorizeWithAI(descriptions)`: on success the remote labels are
returned; a thrown error or non-success status is caught *inside* and
replaced by the rule-based category names (source information discarded). -/
def categorizeWithAI (o : RemoteOutcome) (descriptions : List Str) : List Str :=
  match o with
  | .ok cats => cats
  | .failing => descriptions.map (fun d => (categorizeWithRules d).category)

/-- JavaScript `Array.prototype.map` with the element index
(`(x, i) => ...`), as a structural recursion. -/
def mapWithIdx {α β : Type} (f : Nat → α → β) : Nat → List α → List β
  | _, [] => []
  | i, a :: as => f i a :: mapWithIdx f (i + 1) as

/-- `categorizeTransactions(transactions)`: adopt the `categorizeWithAI`
labels with confidence 0.9 and source `ai` when the count matches, else
re-run the rule matcher per transaction with its confidence and source.
(The code's own `try`/`catch` around the call is unreachable because
`categorizeWithAI` never throws; the mismatch branch is the only route to
the `rules`-labelled fallback.) -/
def categorizeTransactions (o : RemoteOutcome) (ts : List RawTransaction) :
    List CategorizedTransaction :=
  let aiCategories := categorizeWithAI o (ts.map (·.description))
  if aiCategories.length = ts.length then
    mapWithIdx (fun i t =>
      let c := aiCategories.getD i []
      { toRawTransaction := t
        category := if c = [] then str "Other Expenses" else c
        subcategory := none
        confidence := 9/10
        categorySource := .ai }) 0 ts
  else
    ts.map (fun t =>
      let r := categorizeWithRules t.description
      { toRawTransaction := t
        category := r.category
        subcategory := r.subcategory
        confidence := r.confidence
        categorySource := r.source })

/-! ### CSV Ingestor (`src/lib/file-parsers.ts`)

The `csv-parse` library call is the module boundary: `parseCSV` is embedded
at the record level, taking the header list (`Object.keys(records[0])`) and
the per-row value lists (`Object.values(record)`, missing cells reading as
the empty string). -/

/-- `normalizeColumnName`: lower-case, map every character outside
`[a-z0-9]` to `_`, collapse runs of `_`, strip one leading and one trailing
underscore (`/^_|_$/g`; after collapsing, runs at the ends have length 1). -/
def maskCh (c : Char) : Char :=
  if ('a' ≤ c ∧ c ≤ 'z') ∨ ('0' ≤ c ∧ c ≤ '9') then c else '_'

/-- Collapse every run of two or more underscores to one (`/_{2,}/g`): a
character is dropped exactly when it is an underscore followed by another
underscore. -/
def collapseU : Str → Str
  | [] => []
  | c :: t =>
    if c = '_' ∧ t.head? = some '_' then collapseU t
    else c :: collapseU t

/-- Strip one trailing underscore (the `_$` alternative of `/^_|_$/g`). -/
def trimTrailU (x : Str) : Str :=
  if x.getLast? = some '_' then x.dropLast else x

/-- Strip one leading and one trailing underscore (`/^_|_$/g`). -/
def trimU (l : Str) : Str :=
  trimTrailU (if l.head? = some '_' then l.tail else l)

/-- `normalizeColumnName(column)`. -/
def normalizeColumnName (column : Str) : Str :=
  trimU (collapseU ((lowerStr column).map maskCh))

/-- One bank's field-name table of `COLUMN_MAPPINGS`. -/
structure ColMapping where
  date : List Str
  description : List Str
  amount : List Str
  balance : List Str
  reference : List Str
  ctype : List Str

/-- The bank layouts distinguished by `detectBankFormat`. -/
inductive BankFormat where
  | generic | chase | bankofamerica | wells_fargo
deriving DecidableEq

/-- `COLUMN_MAPPINGS`. -/
def bankMapping : BankFormat → ColMapping
  | .generic =>
    { date := [str "date", str "transaction_date", str "trans_date", str "posting_date"]
      description := [str "description", str "detail", str "memo", str "particulars",
                      str "transaction_details"]
      amount := [str "amount", str "debit", str "credit", str "transaction_amount", str "value"]
      balance := [str "balance", str "running_balance", str "account_balance"]
      reference := [str "reference", str "ref", str "transaction_id", str "cheque_no"]
      ctype := [str "type", str "transaction_type", str "dr_cr"] }
  | .chase =>
    { date := [str "transaction_date"], description := [str "description"]
      amount := [str "amount"], balance := [str "balance"]
      reference := [], ctype := [str "type"] }
  | .bankofamerica =>
    { date := [str "date"], description := [str "description"]
      amount := [str "amount"], balance := [str "running_bal"]
      reference := [], ctype := [] }
  | .wells_fargo =>
    { date := [str "date"], description := [str "description"]
      amount := [str "amount"], balance := [], reference := [], ctype := [] }

/-- `detectBankFormat(headers)`: bank-identifying substrings of the
normalized headers, first hit wins, else generic. -/
def detectBankFormat (headers : List Str) : BankFormat :=
  let nh := headers.map normalizeColumnName
  if nh.any (fun h => isSubstr (str "chase") h) then .chase
  else if nh.any (fun h => isSubstr (str "bank_of_america") h) then .bankofamerica
  else if nh.any (fun h => isSubstr (str "wells_fargo") h) then .wells_fargo
  else .generic

/-- Candidate-name loop of `findColumnIndex` over the normalized headers. -/
def findColAux (nh : List Str) : List Str → Option Nat
  | [] => none
  | n :: rest =>
    let n' := normalizeColumnName n
    match nh.findIdx? (fun h => isSubstr n' h || isSubstr h n') with
    | some i => some i
    | none => findColAux nh rest

/-- `findColumnIndex(headers, possibleNames)`: first candidate name with a
bidirectional-substring header hit; `none` models the `-1` sentinel. -/
def findColumnIndex (headers : List Str) (possibleNames : List Str) : Option Nat :=
  findColAux (headers.map normalizeColumnName) possibleNames

/-- One iteration of `records.forEach` of `parseCSV`: validate and convert a
data row (`rowNum` is the 1-indexed, header-offset source position used in
error messages). -/
def processRow (ctx : DateCtx) (di de da : Nat) (bi ti : Option Nat)
    (rowNum : Nat) (row : List Str) : Except Str RawTransaction :=
  let dateStr := trim (row.getD di [])
  let description := trim (row.getD de [])
  let amountStr := trim (row.getD da [])
  if dateStr = [] ∨ description = [] ∨ amountStr = [] then
    .error (str "Row " ++ natDigits rowNum ++ str ": Missing required data (date, description, or amount)")
  else
    let amount := parseAmount amountStr
    -- `amount === 0` is tested on the exact-decimal mantissa:
    -- `parseAmount s = 0 ↔ (parseAmountDec s).1 = 0` (`parseAmount_eq_zero_iff`)
    if (parseAmountDec amountStr).1 = 0 ∧ amountStr ≠ str "0" ∧ amountStr ≠ str "0.00" then
      .error (str "Row " ++ natDigits rowNum ++ str ": Could not parse amount \"" ++ amountStr ++ str "\"")
    else
      .ok { date := parseDate ctx dateStr
            description := description
            amount := amount
            balance :=
              match bi with
              | some i =>
                let b := trim (row.getD i [])
                if b = [] then none else some (parseAmount b)
              | none => none
            txType :=
              match ti with
              | some i =>
                let t := lowerStr (trim (row.getD i []))
                if isSubstr (str "credit") t || isSubstr (str "cr") t then some .credit
                else if isSubstr (str "debit") t || isSubstr (str "dr") t then some .debit
                else none
              | none => none }

/-- The `records.forEach` loop: accepted rows are pushed onto the
transaction list, rejected rows onto the error list, in encounter order
(`i` is the 0-based index of the first remaining row). -/
def processRows (ctx : DateCtx) (di de da : Nat) (bi ti : Option Nat) :
    Nat → List (List Str) → List RawTransaction × List Str
  | _, [] => ([], [])
  | i, r :: rs =>
    let rest := processRows ctx di de da bi ti (i + 1) rs
    match processRow ctx di de da bi ti (i + 2) r with
    | .ok t => (t :: rest.1, rest.2)
    | .error e => (rest.1, e :: rest.2)

/-- `parseCSV`, from the record level on: empty record set, unresolved
required columns, and zero surviving transactions are file-level failures
(wrapped by the outer catch); otherwise the aggregate statistics are
computed over the accepted transactions. -/
def parseCSV (ctx : DateCtx) (headers : List Str) (rows : List (List Str))
    (filename parsedAt : Str) : Except Str ParsedFileResult :=
  if rows = [] then .error (str "Failed to parse CSV file: No data found in CSV file")
  else
    let m := bankMapping (detectBankFormat headers)
    match findColumnIndex headers m.date, findColumnIndex headers m.description,
          findColumnIndex headers m.amount with
    | some di, some de, some da =>
      let bi := findColumnIndex headers m.balance
      let ti := findColumnIndex headers m.ctype
      let p := processRows ctx di de da bi ti 0 rows
      if p.1 = [] then
        .error (str "Failed to parse CSV file: No valid transactions found in the file")
      else
        let sorted := sortDates (p.1.map (·.date))
        .ok { transactions := p.1
              totalAmount := p.1.foldl (fun s t => s + |t.amount|) 0
              dateStart := sorted.headD []
              dateEnd := sorted.getLastD []
              errors := p.2
              rowCount := p.1.length
              originalFilename := filename
              parsedAt := parsedAt }
    | _, _, _ =>
      .error (str "Failed to parse CSV file: Required columns not found. Expected columns containing: date, description, and amount. Found headers: " ++ joinSep (str ", ") headers)

/-! ### Statement Table Ingestor (`src/app/api/parse-pdf/route.ts`)

`parseTransactionLine` first collapses all whitespace runs to single spaces
(`line.replace(/\s+/g, ' ').trim()`), so every `\s+` of its anchored
patterns matches exactly one space and every capture starts and ends at a
token boundary.  The patterns are therefore embedded over the line's
whitespace-separated token list (`words`), with the token sub-languages
(`amtTok`, date tokens) embedded as functional matchers of the regex
fragments. -/

/-- The whitespace-separated tokens of a line (equivalently: the single
space separated fields of the `\s+`-collapsed, trimmed line). -/
def words : Str → List Str
  | [] => []
  | [c] => if isJsSpace c then [] else [[c]]
  | a :: b :: t =>
    if isJsSpace a then words (b :: t)
    else if isJsSpace b then [a] :: words t
    else
      match words (b :: t) with
      | h :: r => (a :: h) :: r
      | [] => [[a]]

/-- Tail of the amount fragment after the digit groups: `\.?\d{0,2}` against
the end of the token. -/
def tailCheck (r : Str) : Bool :=
  let r1 := match r with
    | '.' :: t => t
    | t => t
  (r1.dropWhile Char.isDigit).isEmpty && (r1.takeWhile Char.isDigit).length ≤ 2

/-- Comma thousands groups of the amount fragment: `(?:,\d{3})*` followed by
the `tailCheck` remainder (a comma not followed by three digits kills the
match — nothing later can consume it).  Fueled for kernel reduction; each
step consumes at least four characters, so the initial fuel suffices. -/
def commaGroupsF : Nat → Str → Bool
  | 0, _ => false
  | fuel + 1, r =>
    match r with
    | ',' :: t =>
      if 3 ≤ (t.takeWhile Char.isDigit).length then
        commaGroupsF fuel ((t.takeWhile Char.isDigit).drop 3 ++ t.dropWhile Char.isDigit)
      else false
    | r => tailCheck r

/-- Entry point of the comma-group matcher. -/
def commaGroups (r : Str) : Bool := commaGroupsF (r.length + 1) r

/-- Full-token match of the amount fragment
`[-+]?\$?\d{1,3}(?:,\d{3})*\.?\d{0,2}`: when the leading digit run is longer
than three, `\d{1,3}` takes three and the surplus must be absorbed by
`\d{0,2}` at the very end. -/
def amtTok (s : Str) : Bool :=
  let s1 := match s with
    | '-' :: t => t
    | '+' :: t => t
    | t => t
  let s2 := match s1 with
    | '$' :: t => t
    | t => t
  let ds := s2.takeWhile Char.isDigit
  let r := s2.dropWhile Char.isDigit
  if ds.length = 0 then false
  else if ds.length ≤ 3 then commaGroups r
  else tailCheck (ds.drop 3 ++ r)

/-- Full-token match of `\d{1,2}\/\d{1,2}\/\d{4}`. -/
def isSlashDateTok (t : Str) : Bool := (matchSlashFmt4 t).isSome

/-- Full-token match of `\d{4}-\d{1,2}-\d{1,2}`. -/
def isIsoDateTok (t : Str) : Bool := (matchIsoFmt t).isSome

/-- Captures of one matched line pattern. -/
structure LineCaps where
  dateStr : Str
  descr : Str
  amountStr : Str
  balanceStr : Option Str
deriving DecidableEq, Repr

/-- Pattern 1, `Date Description Amount Balance`: the two amount-language
captures are anchored at the end, so they are forced to be the last two
tokens and the lazy description is the (non-empty) rest. -/
def pat1 : List Str → Option LineCaps
  | [] => none
  | t0 :: rest =>
    if isSlashDateTok t0 ∧ 3 ≤ rest.length then
      let a := rest.getD (rest.length - 2) []
      let b := rest.getD (rest.length - 1) []
      if amtTok a ∧ amtTok b then
        some ⟨t0, joinSep [' '] (rest.take (rest.length - 2)), a, some b⟩
      else none
    else none

/-- Pattern 2, `Date Description Amount`. -/
def pat2 : List Str → Option LineCaps
  | [] => none
  | t0 :: rest =>
    if isSlashDateTok t0 ∧ 2 ≤ rest.length then
      let a := rest.getD (rest.length - 1) []
      if amtTok a then
        some ⟨t0, joinSep [' '] (rest.take (rest.length - 1)), a, none⟩
      else none
    else none

/-- Pattern 3, `Date Amount Description` (greedy description = all trailing
tokens). -/
def pat3 : List Str → Option LineCaps
  | t0 :: t1 :: rest =>
    if isSlashDateTok t0 ∧ amtTok t1 ∧ rest ≠ [] then
      some ⟨t0, joinSep [' '] rest, t1, none⟩
    else none
  | _ => none

/-- Pattern 4, ISO date with optional trailing balance: the lazy description
prefers the shorter form, so the with-balance split (two trailing amount
tokens) is tried before the balance-free one. -/
def pat4 : List Str → Option LineCaps
  | [] => none
  | t0 :: rest =>
    if isIsoDateTok t0 then
      if 3 ≤ rest.length ∧ amtTok (rest.getD (rest.length - 2) []) ∧
         amtTok (rest.getD (rest.length - 1) []) then
        some ⟨t0, joinSep [' '] (rest.take (rest.length - 2)),
              rest.getD (rest.length - 2) [], some (rest.getD (rest.length - 1) [])⟩
      else if 2 ≤ rest.length ∧ amtTok (rest.getD (rest.length - 1) []) then
        some ⟨t0, joinSep [' '] (rest.take (rest.length - 1)),
              rest.getD (rest.length - 1) [], none⟩
      else none
    else none

/-- The ordered pattern list of `parseTransactionLine`. -/
def pdfPatterns : List (List Str → Option LineCaps) := [pat1, pat2, pat3, pat4]

/-- The `for (const pattern of patterns)` loop: on a structural match whose
amount normalizes to `0` with a literal other than `"0.00"`, `continue` to
the next pattern; otherwise build the transaction (balance only when the
captured balance normalizes non-zero). -/
def tryPatterns (ctx : DateCtx) : List (List Str → Option LineCaps) → List Str →
    Option RawTransaction
  | [], _ => none
  | p :: ps, toks =>
    match p toks with
    | none => tryPatterns ctx ps toks
    | some caps =>
      -- zero tests on the exact-decimal mantissa (`parseAmount_eq_zero_iff`)
      if (parseAmountDec caps.amountStr).1 = 0 ∧ caps.amountStr ≠ str "0.00" then
        tryPatterns ctx ps toks
      else
        some { date := parseDatePdf ctx caps.dateStr
               description := trim caps.descr
               amount := parseAmount caps.amountStr
               balance :=
                 match caps.balanceStr with
                 | some b => if (parseAmountDec b).1 ≠ 0 then some (parseAmount b) else none
                 | none => none
               txType := none }

/-- `parseTransactionLine(line)`. -/
def parseTransactionLine (ctx : DateCtx) (line : Str) : Option RawTransaction :=
  tryPatterns ctx pdfPatterns (words line)

/-- The leading-date candidate test
`/^(\d{1,2}\/\d{1,2}\/\d{4}|\d{4}-\d{1,2}-\d{1,2})/.test(line)`:
slashed alternative as a prefix. -/
def slashLead (l : Str) : Bool :=
  if 1 ≤ (l.takeWhile Char.isDigit).length ∧ (l.takeWhile Char.isDigit).length ≤ 2 then
    match l.dropWhile Char.isDigit with
    | '/' :: u =>
      if 1 ≤ (u.takeWhile Char.isDigit).length ∧ (u.takeWhile Char.isDigit).length ≤ 2 then
        match u.dropWhile Char.isDigit with
        | '/' :: v => 4 ≤ (v.takeWhile Char.isDigit).length
        | _ => false
      else false
    | _ => false
  else false

/-- ISO alternative of the leading-date test, as a prefix. -/
def isoLead (l : Str) : Bool :=
  if (l.takeWhile Char.isDigit).length = 4 then
    match l.dropWhile Char.isDigit with
    | '-' :: u =>
      if 1 ≤ (u.takeWhile Char.isDigit).length ∧ (u.takeWhile Char.isDigit).length ≤ 2 then
        match u.dropWhile Char.isDigit with
        | '-' :: v => 1 ≤ (v.takeWhile Char.isDigit).length
        | _ => false
      else false
    | _ => false
  else false

/-- Combined leading-date test of the primary candidate selection. -/
def hasLeadingDate (l : Str) : Bool := slashLead l || isoLead l

/-- JavaScript `line.split(/\s{2,}/)`: segments separated by maximal
whitespace runs of length at least two (single whitespace stays inside a
segment). -/
def splitWs2 : Str → List Str
  | [] => [[]]
  | [c] => [[c]]
  | a :: b :: t =>
    if isJsSpace a ∧ isJsSpace b then
      [] :: splitWs2 ((b :: t).dropWhile isJsSpace)
    else
      match splitWs2 (b :: t) with
      | h :: r => (a :: h) :: r
      | [] => [[a]]
termination_by l => l.length
decreasing_by
  · have h1 := (List.dropWhile_sublist (l := b :: t) isJsSpace).length_le
    simp [List.length_cons] at h1 ⊢
    omega
  · simp [List.length_cons]

/-- The secondary table-structure heuristic for candidate lines. -/
def tableLine (line : Str) : Bool :=
  let fields := (splitWs2 line).filter (fun f => 0 < f.length)
  decide (3 ≤ fields.length) &&
  fields.any (fun f => f.any Char.isDigit) &&
  fields.any (fun f => f.contains '.' || f.contains ',') &&
  !(isSubstr (str "total") (lowerStr line)) &&
  !(isSubstr (str "balance") (lowerStr line)) &&
  !(isSubstr (str "date") (lowerStr line))

/-- The per-candidate-line loop of `parseTransactionsFromText` (`i` is the
0-based index of the first remaining line; a line with no surviving pattern
is recorded as a line-level error). -/
def processLines (ctx : DateCtx) : Nat → List Str → List RawTransaction × List Str
  | _, [] => ([], [])
  | i, l :: ls =>
    let rest := processLines ctx (i + 1) ls
    match parseTransactionLine ctx l with
    | some t => (t :: rest.1, rest.2)
    | none =>
      (rest.1,
       (str "Line " ++ natDigits (i + 1) ++ str ": Could not parse transaction line: " ++ l)
         :: rest.2)

/-- `parseTransactionsFromText(text, filename)`: split into non-empty
trimmed lines, select candidates by leading date (falling back to the table
heuristic plus a diagnostic), parse each candidate, fail the file when no
transaction survives, else aggregate exactly as the CSV ingestor. -/
def parseTransactionsFromText (ctx : DateCtx) (text : Str) (filename parsedAt : Str) :
    Except Str ParsedFileResult :=
  let lines := ((splitCh '\n' text).map trim).filter (fun l => l ≠ [])
  let primary := lines.filter hasLeadingDate
  let initErrs : List Str :=
    if primary = [] then [str "No transaction lines found with standard date patterns"] else []
  let candidates := if primary = [] then lines.filter tableLine else primary
  let p := processLines ctx 0 candidates
  if p.1 = [] then .error (str "Failed to parse PDF text: No valid transactions found in PDF")
  else
    let sorted := sortDates (p.1.map (·.date))
    .ok { transactions := p.1
          totalAmount := p.1.foldl (fun s t => s + |t.amount|) 0
          dateStart := sorted.headD []
          dateEnd := sorted.getLastD []
          errors := initErrs ++ p.2
          rowCount := p.1.length
          originalFilename := filename
          parsedAt := parsedAt }

/-! ### Concrete inputs used by the verification -/

/-- A fixed ambient date context (its values are irrelevant to every claim
verified below). -/
def ctx0 : DateCtx := ⟨str "2025-06-01", 2025⟩

/-- A transaction whose description is the specification's categorization
test vector. -/
def starbucksTx : RawTransaction :=
  { date := str "2024-01-02", description := str "STARBUCKS COFFEE #1234",
    amount := -9/2 }

/-- Header row of the concrete CSV examples. -/
def csvHeaders3 : List Str := [str "Date", str "Description", str "Amount"]

/-- Ten CSV data rows whose fifth row (0-based index 4, source row 6) has an
empty amount field. -/
def csvRows10 : List (List Str) :=
  [[str "01/02/2024", str "ROW ONE", str "-1.00"],
   [str "01/03/2024", str "ROW TWO", str "-2.00"],
   [str "01/04/2024", str "ROW THREE", str "-3.00"],
   [str "01/05/2024", str "ROW FOUR", str "-4.00"],
   [str "01/06/2024", str "ROW FIVE", str ""],
   [str "01/07/2024", str "ROW SIX", str "-6.00"],
   [str "01/08/2024", str "ROW SEVEN", str "-7.00"],
   [str "01/09/2024", str "ROW EIGHT", str "-8.00"],
   [str "01/10/2024", str "ROW NINE", str "-9.00"],
   [str "01/11/2024", str "ROW TEN", str "-10.00"]]

/-- A statement line on which the first grammar pattern matches structurally
but captures the zero-normalizing amount literal `"0.0"`. -/
def zeroAmtLine : Str := str "01/02/2024 SHOP 0.0 5.00"

/-- An ambiguous slashed date string `a/b/c` built from numerals (for the
date-disambiguation claim). -/
def slashDate (a b c : Nat) : Str :=
  natDigits a ++ '/' :: natDigits b ++ '/' :: natDigits c

/-! ### Claim C7 auxiliary lemmas (also used by C1) -/

/-- The inner keyword loop is an `any` over the keyword list. -/
theorem kwLoop_eq_any (d : Str) : ∀ ks : List Str,
    kwLoop d ks = ks.any (fun k => isSubstr (lowerStr k) d)
  | [] => rfl
  | k :: ks => by
    rw [kwLoop, List.any_cons, kwLoop_eq_any d ks]
    by_cases h : isSubstr (lowerStr k) d = true <;> simp [h]

/-- The outer rule loop returns the result built from the first rule (in
declaration order) with a matching keyword. -/
theorem ruleLoop_eq (d : Str) : ∀ rs : List CatRule,
    ruleLoop d rs =
      (rs.find? (fun r => r.keywords.any (fun k => isSubstr (lowerStr k) d))).map
        (fun r => CategoryResult.mk r.category r.subcategory (8/10) .rules)
  | [] => rfl
  | r :: rs => by
    rw [ruleLoop, kwLoop_eq_any, ruleLoop_eq d rs]
    by_cases h : r.keywords.any (fun k => isSubstr (lowerStr k) d) = true <;>
      simp [h, List.find?_cons]

/-- Every category name the rule matcher can return is non-empty. -/
theorem categorizeWithRules_category_ne_nil (d : Str) :
    (categorizeWithRules d).category ≠ [] := by
  unfold categorizeWithRules
  rw [ruleLoop_eq]
  cases hf : CATEGORIZATION_RULES.find? (fun r =>
      r.keywords.any (fun k => isSubstr (lowerStr k) (lowerStr d))) with
  | none => simp [str]
  | some r =>
    have hr := List.mem_of_find?_eq_some hf
    have hall : ∀ r ∈ CATEGORIZATION_RULES, r.category ≠ [] := by decide
    simpa using hall r hr

/-! ### Claim C1 — provenance of the remote-failure fallback -/

/-- Auxiliary: an indexed map, started at the length of a prefix, whose
indexed data is the mapped image of the prefix-extended list, reduces to a
plain map. -/
theorem mapWithIdx_getD_map {α β : Type} (g : α → Str) (F : α → Str → β) :
    ∀ (l pre : List α),
      mapWithIdx (fun i t => F t (((pre ++ l).map g).getD i [])) pre.length l
        = l.map (fun t => F t (g t))
  | [], _ => rfl
  | a :: l, pre => by
    rw [mapWithIdx, List.map_cons]
    congr 1
    · congr 1
      rw [List.getD_eq_getElem?_getD, List.getElem?_map,
          List.getElem?_append_right (Nat.le_refl _)]
      simp
    · have ih := mapWithIdx_getD_map g F l (pre ++ [a])
      simpa [List.append_assoc, List.length_append] using ih

/-- C1.  When the remote classification call throws or returns a non-success
status, `categorizeWithAI` recovers *internally* with the bare rule category
names, so `categorizeTransactions` takes its count-match branch: every
transaction does get its keyword-rule category, but labelled
`categorySource = ai` with confidence 0.9 and no subcategory — contradicting
the claimed `rules` provenance (with the rule's subcategory and rule-match
confidence).  Second conjunct: the concrete failing batch. -/
theorem c1_remote_failure_mislabelled_ai :
    (∀ ts : List RawTransaction,
      categorizeTransactions .failing ts =
        ts.map (fun t =>
          { toRawTransaction := t
            category := (categorizeWithRules t.description).category
            subcategory := none
            confidence := 9/10
            categorySource := CatSource.ai })) ∧
    categorizeTransactions .failing [starbucksTx] =
      [{ toRawTransaction := starbucksTx
         category := str "Food & Dining"
         subcategory := none
         confidence := 9/10
         categorySource := CatSource.ai }] := by
  refine ⟨?_, rfl⟩
  intro ts
  have h : categorizeWithAI .failing (ts.map (·.description)) =
      ts.map (fun t => (categorizeWithRules t.description).category) := by
    simp [categorizeWithAI, Function.comp_def]
  unfold categorizeTransactions
  rw [h, if_pos (by simp)]
  have key := mapWithIdx_getD_map
    (fun t : RawTransaction => (categorizeWithRules t.description).category)
    (fun t c =>
      ({ toRawTransaction := t
         category := if c = [] then str "Other Expenses" else c
         subcategory := none
         confidence := 9/10
         categorySource := CatSource.ai } : CategorizedTransaction)) ts []
  refine Eq.trans ?_ (key.trans ?_)
  · rfl
  · exact List.map_congr_left fun t _ => by
      rw [if_neg (categorizeWithRules_category_ne_nil t.description)]

/-! ### Claim C7 — determinism and shape of `categorizeWithRules` -/

/-- C7.  `categorizeWithRules` is a pure function of the description: it
returns the category/subcategory of the *first* rule in table-declaration
order (`List.find?`) having a keyword occurring in the lower-cased
description, with confidence 0.8 and source `rules`; with no match it
returns "Other Expenses" at confidence 0.3, source `rules`.  In particular
`"STARBUCKS COFFEE #1234"` resolves to "Food & Dining" / `rules` / 0.8. -/
theorem c7_rules_matcher_first_match :
    (∀ d : Str, categorizeWithRules d =
      match CATEGORIZATION_RULES.find? (fun r =>
          r.keywords.any (fun k => isSubstr (lowerStr k) (lowerStr d))) with
      | some r => ⟨r.category, r.subcategory, 8/10, .rules⟩
      | none => ⟨str "Other Expenses", none, 3/10, .rules⟩) ∧
    categorizeWithRules (str "STARBUCKS COFFEE #1234") =
      ⟨str "Food & Dining", some (str "Restaurants"), 8/10, .rules⟩ := by
  refine ⟨?_, rfl⟩
  intro d
  unfold categorizeWithRules
  rw [ruleLoop_eq]
  cases hf : CATEGORIZATION_RULES.find? (fun r =>
      r.keywords.any (fun k => isSubstr (lowerStr k) (lowerStr d))) <;> rfl

/-! ### Claim C10 — header normalization is idempotent -/

/-- Auxiliary: masking yields only lowercase letters, digits, or
underscores. -/
theorem maskCh_shape (c : Char) :
    ('a' ≤ maskCh c ∧ maskCh c ≤ 'z') ∨ ('0' ≤ maskCh c ∧ maskCh c ≤ '9') ∨ maskCh c = '_' := by
  unfold maskCh
  split
  · rename_i h
    rcases h with h | h
    · exact Or.inl h
    · exact Or.inr (Or.inl h)
  · exact Or.inr (Or.inr rfl)

/-- Auxiliary: lower-casing and masking fix lowercase letters, digits and
underscores. -/
theorem shape_fixed {c : Char}
    (h : ('a' ≤ c ∧ c ≤ 'z') ∨ ('0' ≤ c ∧ c ≤ '9') ∨ c = '_') :
    lowerCh c = c ∧ maskCh c = c := by
  rcases h with ⟨h1, h2⟩ | ⟨h1, h2⟩ | rfl
  · refine ⟨?_, by unfold maskCh; rw [if_pos (Or.inl ⟨h1, h2⟩)]⟩
    unfold lowerCh
    rw [if_neg]
    rintro ⟨_, g2⟩
    have k1 : (97 : Nat) ≤ c.toNat := h1
    have k2 : c.toNat ≤ 90 := g2
    omega
  · refine ⟨?_, by unfold maskCh; rw [if_pos (Or.inr ⟨h1, h2⟩)]⟩
    unfold lowerCh
    rw [if_neg]
    rintro ⟨g1, _⟩
    have k1 : (65 : Nat) ≤ c.toNat := g1
    have k2 : c.toNat ≤ 57 := h2
    omega
  · exact ⟨by decide, by decide⟩

/-- Auxiliary: collapsing underscore runs only keeps original characters. -/
theorem collapseU_subset : ∀ l : Str, ∀ c ∈ collapseU l, c ∈ l
  | [] => by simp [collapseU]
  | a :: t => by
    intro c hc
    rw [collapseU] at hc
    split at hc
    · exact List.mem_cons_of_mem _ (collapseU_subset t c hc)
    · rcases List.mem_cons.mp hc with rfl | hc
      · exact List.mem_cons_self _ t
      · exact List.mem_cons_of_mem _ (collapseU_subset t c hc)

/-- Auxiliary: collapsing underscore runs preserves the first character. -/
theorem collapseU_head : ∀ l : Str, (collapseU l).head? = l.head?
  | [] => rfl
  | a :: t => by
    rw [collapseU]
    split
    · rename_i h
      rw [collapseU_head t, h.2, h.1]
      rfl
    · simp

/-- Auxiliary: a collapsed string has no two adjacent underscores. -/
theorem collapseU_chain : ∀ l : Str,
    List.Chain' (fun a b => ¬(a = '_' ∧ b = '_')) (collapseU l)
  | [] => by simp [collapseU]
  | a :: t => by
    rw [collapseU]
    split
    · exact collapseU_chain t
    · rename_i h
      rw [List.chain'_cons']
      refine ⟨?_, collapseU_chain t⟩
      intro b hb
      rw [collapseU_head t, Option.mem_def] at hb
      rintro ⟨ha, hbu⟩
      exact h ⟨ha, by rw [hb, hbu]⟩

/-- Auxiliary: collapsing fixes a string with no adjacent underscores. -/
theorem collapseU_id : ∀ l : Str,
    List.Chain' (fun a b => ¬(a = '_' ∧ b = '_')) l → collapseU l = l
  | [] => fun _ => rfl
  | a :: t => by
    intro h
    rw [List.chain'_cons'] at h
    rw [collapseU, if_neg, collapseU_id t h.2]
    rintro ⟨ha, hh⟩
    exact (h.1 '_' (Option.mem_def.mpr hh)) ⟨ha, rfl⟩


/-- Auxiliary: dropping the last element preserves the absence of adjacent
underscores. -/
theorem chain'_dropLast {R : Char → Char → Prop} : ∀ x : Str,
    List.Chain' R x → List.Chain' R x.dropLast
  | [] => fun _ => by simp
  | [_] => fun _ => by simp
  | a :: b :: t => fun h => by
    rw [List.chain'_cons] at h
    have ih := chain'_dropLast (b :: t) h.2
    show List.Chain' R (a :: (b :: t).dropLast)
    cases t with
    | nil => simp
    | cons c u => exact List.chain'_cons.mpr ⟨h.1, ih⟩

/-- Auxiliary: the head of `dropLast` is the head of the list, unless the
result is empty. -/
theorem head?_dropLast (x : Str) : x.dropLast.head? = x.head? ∨ x.dropLast = [] := by
  match x with
  | [] => exact Or.inr rfl
  | [_] => exact Or.inr rfl
  | _ :: _ :: _ => exact Or.inl rfl

/-- Auxiliary: in a list with no adjacent underscores whose last element is
an underscore, dropping that element leaves a last element that is not an
underscore. -/
theorem getLast?_dropLast_ne {x : Str}
    (hc : List.Chain' (fun a b => ¬(a = '_' ∧ b = '_')) x)
    (hl : x.getLast? = some '_') : x.dropLast.getLast? ≠ some '_' := by
  have hrev : List.Chain' (fun p q => ¬(q = '_' ∧ p = '_')) x.reverse :=
    List.chain'_reverse.mpr hc
  rw [← List.head?_reverse] at hl
  intro hcon
  rw [← List.head?_reverse, ← List.tail_reverse] at hcon
  cases hx : x.reverse with
  | nil => rw [hx] at hl; simp at hl
  | cons a ys =>
    rw [hx] at hl hcon hrev
    simp only [List.head?_cons, Option.some.injEq] at hl
    simp only [List.tail_cons] at hcon
    rw [List.chain'_cons'] at hrev
    exact (hrev.1 '_' (Option.mem_def.mpr hcon)) ⟨rfl, hl⟩

/-- Auxiliary: trailing-underscore trimming returns a subset of the
characters. -/
theorem trimTrailU_subset (x : Str) : ∀ c ∈ trimTrailU x, c ∈ x := by
  intro c hc
  unfold trimTrailU at hc
  split at hc
  · exact List.dropLast_subset _ hc
  · exact hc

/-- Auxiliary: trailing-underscore trimming preserves the absence of
adjacent underscores. -/
theorem trimTrailU_chain {R : Char → Char → Prop} (x : Str) (h : List.Chain' R x) :
    List.Chain' R (trimTrailU x) := by
  unfold trimTrailU
  split
  · exact chain'_dropLast _ h
  · exact h

/-- Auxiliary: trailing-underscore trimming preserves a non-underscore
head. -/
theorem trimTrailU_head (x : Str) (hx : x.head? ≠ some '_') :
    (trimTrailU x).head? ≠ some '_' := by
  unfold trimTrailU
  split
  · rcases head?_dropLast x with he | he
    · rw [he]; exact hx
    · rw [he]; simp
  · exact hx

/-- Auxiliary: after trailing-underscore trimming of an
underscore-collapsed string, the last character is not an underscore. -/
theorem trimTrailU_last (x : Str)
    (h : List.Chain' (fun a b => ¬(a = '_' ∧ b = '_')) x) :
    (trimTrailU x).getLast? ≠ some '_' := by
  unfold trimTrailU
  split
  · rename_i hl; exact getLast?_dropLast_ne h hl
  · rename_i hl; exact hl

/-- Auxiliary: underscore-trimming returns a subset of the characters. -/
theorem trimU_subset (l : Str) : ∀ c ∈ trimU l, c ∈ l := by
  intro c hc
  unfold trimU at hc
  by_cases hh : l.head? = some '_'
  · rw [if_pos hh] at hc
    exact List.tail_subset l (trimTrailU_subset _ c hc)
  · rw [if_neg hh] at hc
    exact trimTrailU_subset _ c hc

/-- Auxiliary: underscore-trimming preserves the absence of adjacent
underscores. -/
theorem trimU_chain {R : Char → Char → Prop} (l : Str) (h : List.Chain' R l) :
    List.Chain' R (trimU l) := by
  unfold trimU
  by_cases hh : l.head? = some '_'
  · rw [if_pos hh]; exact trimTrailU_chain _ (List.Chain'.tail h)
  · rw [if_neg hh]; exact trimTrailU_chain _ h

/-- Auxiliary: on an underscore-collapsed string, trimming leaves no leading
underscore. -/
theorem trimU_head (l : Str)
    (h : List.Chain' (fun a b => ¬(a = '_' ∧ b = '_')) l) :
    (trimU l).head? ≠ some '_' := by
  unfold trimU
  by_cases hh : l.head? = some '_'
  · rw [if_pos hh]
    apply trimTrailU_head
    cases l with
    | nil => simp at hh
    | cons a t =>
      simp only [List.head?_cons, Option.some.injEq] at hh
      rw [List.chain'_cons'] at h
      simp only [List.tail_cons]
      intro hcon
      exact (h.1 '_' (Option.mem_def.mpr hcon)) ⟨hh, rfl⟩
  · rw [if_neg hh]
    exact trimTrailU_head _ hh

/-- Auxiliary: on an underscore-collapsed string, trimming leaves no
trailing underscore. -/
theorem trimU_last (l : Str)
    (h : List.Chain' (fun a b => ¬(a = '_' ∧ b = '_')) l) :
    (trimU l).getLast? ≠ some '_' := by
  unfold trimU
  by_cases hh : l.head? = some '_'
  · rw [if_pos hh]; exact trimTrailU_last _ (List.Chain'.tail h)
  · rw [if_neg hh]; exact trimTrailU_last _ h

/-- Auxiliary: trimming fixes a string with no edge underscores. -/
theorem trimU_id (l : Str) (h1 : l.head? ≠ some '_') (h2 : l.getLast? ≠ some '_') :
    trimU l = l := by
  unfold trimU
  rw [if_neg h1]
  unfold trimTrailU
  rw [if_neg h2]

/-- Auxiliary: the shape of every normalized column name — only lowercase
alphanumerics and underscores, no adjacent underscores, no edge
underscores. -/
theorem normalizeColumnName_shape (s : Str) :
    (∀ c ∈ normalizeColumnName s,
        ('a' ≤ c ∧ c ≤ 'z') ∨ ('0' ≤ c ∧ c ≤ '9') ∨ c = '_') ∧
    List.Chain' (fun a b => ¬(a = '_' ∧ b = '_')) (normalizeColumnName s) ∧
    (normalizeColumnName s).head? ≠ some '_' ∧
    (normalizeColumnName s).getLast? ≠ some '_' := by
  have hchain := collapseU_chain ((lowerStr s).map maskCh)
  refine ⟨?_, trimU_chain _ hchain, trimU_head _ hchain, trimU_last _ hchain⟩
  intro c hc
  have h2 := collapseU_subset _ c (trimU_subset _ c hc)
  rcases List.mem_map.mp h2 with ⟨d, _, rfl⟩
  exact maskCh_shape d

/-- Auxiliary: normalization is idempotent. -/
theorem normalizeColumnName_idem (s : Str) :
    normalizeColumnName (normalizeColumnName s) = normalizeColumnName s := by
  obtain ⟨hP, hchain, hhead, hlast⟩ := normalizeColumnName_shape s
  show trimU (collapseU ((lowerStr (normalizeColumnName s)).map maskCh)) = _
  have e1 : (lowerStr (normalizeColumnName s)).map maskCh = normalizeColumnName s := by
    unfold lowerStr
    rw [List.map_map]
    have hfix : ∀ c ∈ normalizeColumnName s, (maskCh ∘ lowerCh) c = c := by
      intro c hc
      have hf := shape_fixed (hP c hc)
      simp [Function.comp_def, hf.1, hf.2]
    rw [List.map_congr_left hfix, List.map_id']
  rw [e1, collapseU_id _ hchain, trimU_id _ hhead hlast]

/-- C10.  `normalizeColumnName` is idempotent; its output consists only of
lowercase alphanumerics and underscores, with no two adjacent underscores
and no leading or trailing underscore; consequently `findColumnIndex` is
insensitive to whether the headers were already normalized. -/
theorem c10_normalizeColumnName_idempotent :
    (∀ s : Str, normalizeColumnName (normalizeColumnName s) = normalizeColumnName s) ∧
    (∀ s : Str,
      (∀ c ∈ normalizeColumnName s,
        ('a' ≤ c ∧ c ≤ 'z') ∨ ('0' ≤ c ∧ c ≤ '9') ∨ c = '_') ∧
      List.Chain' (fun a b => ¬(a = '_' ∧ b = '_')) (normalizeColumnName s) ∧
      (normalizeColumnName s).head? ≠ some '_' ∧
      (normalizeColumnName s).getLast? ≠ some '_') ∧
    (∀ headers names : List Str,
      findColumnIndex (headers.map normalizeColumnName) names = findColumnIndex headers names) := by
  refine ⟨normalizeColumnName_idem, normalizeColumnName_shape, ?_⟩
  intro headers names
  unfold findColumnIndex
  rw [List.map_map]
  have e : headers.map (normalizeColumnName ∘ normalizeColumnName) =
      headers.map normalizeColumnName :=
    List.map_congr_left (fun a _ => by
      simp [Function.comp_def, normalizeColumnName_idem a])
  rw [e]

/-! ### Claim C4 — missing required columns fail the whole file -/

/-- C4.  When the header row resolves no column for date, description or
amount (bidirectional substring matching against the selected bank mapping),
`parseCSV` fails the entire file with the header-reporting error, whatever
the data rows contain — the result is an `error`, so zero transactions. -/
theorem c4_required_columns_fail_whole_file :
    ∀ (ctx : DateCtx) (headers : List Str) (rows : List (List Str)) (fn pa : Str),
      rows ≠ [] →
      (findColumnIndex headers (bankMapping (detectBankFormat headers)).date = none ∨
       findColumnIndex headers (bankMapping (detectBankFormat headers)).description = none ∨
       findColumnIndex headers (bankMapping (detectBankFormat headers)).amount = none) →
      parseCSV ctx headers rows fn pa =
        .error (str "Failed to parse CSV file: Required columns not found. Expected columns containing: date, description, and amount. Found headers: "
          ++ joinSep (str ", ") headers) := by
  intro ctx headers rows fn pa hrows hcol
  simp only [parseCSV]
  rw [if_neg hrows]
  cases h1 : findColumnIndex headers (bankMapping (detectBankFormat headers)).date <;>
    cases h2 : findColumnIndex headers (bankMapping (detectBankFormat headers)).description <;>
      cases h3 : findColumnIndex headers (bankMapping (detectBankFormat headers)).amount <;>
        first
          | rfl
          | (rcases hcol with h | h | h <;> simp_all)

/-- C4 witness: headers with no recognizable date/description/amount
column. -/
theorem c4_required_columns_fail_whole_file_w :
    ([[str "x"]] : List (List Str)) ≠ [] ∧
    findColumnIndex [str "foo", str "bar"]
      (bankMapping (detectBankFormat [str "foo", str "bar"])).date = none ∧
    parseCSV ctx0 [str "foo", str "bar"] [[str "x"]] (str "t.csv") (str "now") =
      .error (str "Failed to parse CSV file: Required columns not found. Expected columns containing: date, description, and amount. Found headers: "
        ++ joinSep (str ", ") [str "foo", str "bar"]) :=
  ⟨by decide, by decide,
    c4_required_columns_fail_whole_file ctx0 [str "foo", str "bar"] [[str "x"]]
      (str "t.csv") (str "now") (by decide) (Or.inl (by decide))⟩

/-! ### Claim C5 — per-row skipping with positioned errors -/

/-- Auxiliary: the mantissa test used by the ingestors is exactly the
`amount === 0` test of the source. -/
theorem parseAmount_eq_zero_iff (s : Str) :
    parseAmount s = 0 ↔ (parseAmountDec s).1 = 0 := by
  unfold parseAmount ratOfDec
  rw [div_eq_zero_iff]
  constructor
  · rintro (h | h)
    · exact_mod_cast h
    · exact absurd h (pow_ne_zero _ (by norm_num))
  · intro h
    left
    exact_mod_cast h

/-- Auxiliary: the row loop is the pair of `filterMap`s of the per-row
outcome over the index-enumerated rows. -/
theorem processRows_eq (ctx : DateCtx) (di de da : Nat) (bi ti : Option Nat) :
    ∀ (i : Nat) (rows : List (List Str)),
      processRows ctx di de da bi ti i rows =
        ((List.enumFrom i rows).filterMap (fun p =>
            (processRow ctx di de da bi ti (p.1 + 2) p.2).toOption),
         (List.enumFrom i rows).filterMap (fun p =>
            match processRow ctx di de da bi ti (p.1 + 2) p.2 with
            | .error e => some e
            | .ok _ => none))
  | _, [] => rfl
  | i, r :: rs => by
    rw [processRows, processRows_eq ctx di de da bi ti (i + 1) rs]
    cases hr : processRow ctx di de da bi ti (i + 2) r <;>
      simp [List.enumFrom, List.filterMap_cons, hr, Except.toOption]

/-- C5.  First conjunct: a data row is skipped (contributes no transaction)
exactly when date, description or amount is empty after trimming, or the
amount normalizes to `0` while its literal is neither `"0"` nor `"0.00"`.
Second conjunct: the row loop emits, in order, one transaction per accepted
row and exactly one error per skipped row, each skipped row `i` reporting
position `i + 2`.  Third conjunct: the concrete 10-row CSV whose fifth data
row has an empty amount yields exactly 9 transactions and exactly one error
referencing row 6. -/
theorem c5_row_skipping_positioned_errors :
    (∀ (ctx : DateCtx) (di de da : Nat) (bi ti : Option Nat) (rowNum : Nat) (row : List Str),
      (processRow ctx di de da bi ti rowNum row).toOption = none ↔
        (trim (row.getD di []) = [] ∨ trim (row.getD de []) = [] ∨ trim (row.getD da []) = [] ∨
         (parseAmount (trim (row.getD da [])) = 0 ∧
          trim (row.getD da []) ≠ str "0" ∧ trim (row.getD da []) ≠ str "0.00"))) ∧
    (∀ (ctx : DateCtx) (di de da : Nat) (bi ti : Option Nat) (rows : List (List Str)),
      processRows ctx di de da bi ti 0 rows =
        (rows.enum.filterMap (fun p => (processRow ctx di de da bi ti (p.1 + 2) p.2).toOption),
         rows.enum.filterMap (fun p =>
            match processRow ctx di de da bi ti (p.1 + 2) p.2 with
            | .error e => some e
            | .ok _ => none))) ∧
    (parseCSV ctx0 csvHeaders3 csvRows10 (str "a.csv") (str "now")).toOption.map
        (fun r => (r.transactions.length, r.errors)) =
      some (9, [str "Row 6: Missing required data (date, description, or amount)"]) := by
  refine ⟨?_, ?_, by decide⟩
  · intro ctx di de da bi ti rowNum row
    rw [parseAmount_eq_zero_iff]
    simp only [processRow]
    by_cases h : (trim (row.getD di []) = [] ∨ trim (row.getD de []) = [] ∨
        trim (row.getD da []) = [])
    · rw [if_pos h]
      simp only [Except.toOption]
      constructor
      · intro _; tauto
      · intro _; trivial
    · rw [if_neg h]
      by_cases h2 : ((parseAmountDec (trim (row.getD da []))).1 = 0 ∧
          trim (row.getD da []) ≠ str "0" ∧ trim (row.getD da []) ≠ str "0.00")
      · rw [if_pos h2]
        simp only [Except.toOption]
        constructor
        · intro _; tauto
        · intro _; trivial
      · rw [if_neg h2]
        simp only [Except.toOption]
        constructor
        · intro hcon; exact absurd hcon (by simp)
        · intro hcon; exact absurd hcon (by tauto)
  · intro ctx di de da bi ti rows
    rw [processRows_eq]
    rfl

/-! ### Claim C9 — zero-normalizing amounts retry the next pattern -/

/-- Auxiliary: the candidate-line loop is the pair of `filterMap`s of
`parseTransactionLine` over the index-enumerated lines. -/
theorem processLines_eq (ctx : DateCtx) : ∀ (i : Nat) (lines : List Str),
    processLines ctx i lines =
      ((List.enumFrom i lines).filterMap (fun p => parseTransactionLine ctx p.2),
       (List.enumFrom i lines).filterMap (fun p =>
          match parseTransactionLine ctx p.2 with
          | some _ => none
          | none => some (str "Line " ++ natDigits (p.1 + 1) ++
              str ": Could not parse transaction line: " ++ p.2)))
  | _, [] => rfl
  | i, l :: ls => by
    rw [processLines, processLines_eq ctx (i + 1) ls]
    cases hr : parseTransactionLine ctx l <;>
      simp [List.enumFrom, List.filterMap_cons, hr]

/-- C9.  First conjunct: when a line-grammar pattern matches structurally
but the captured amount normalizes to `0` with a literal other than
`"0.00"`, the pattern loop continues with the *next pattern on the same
line*.  Second conjunct: a line-level error is recorded exactly for the
lines on which `parseTransactionLine` returns nothing, i.e. only after all
patterns have failed.  Third conjunct: on the concrete line
`"01/02/2024 SHOP 0.0 5.00"`, pattern 1 matches with amount literal
`"0.0"` (normalizing to zero) and the final result is pattern 2's parse. -/
theorem c9_zero_amount_retries_next_pattern :
    (∀ (ctx : DateCtx) (p : List Str → Option LineCaps)
        (ps : List (List Str → Option LineCaps)) (toks : List Str) (caps : LineCaps),
      p toks = some caps →
      parseAmount caps.amountStr = 0 →
      caps.amountStr ≠ str "0.00" →
      tryPatterns ctx (p :: ps) toks = tryPatterns ctx ps toks) ∧
    (∀ (ctx : DateCtx) (i : Nat) (lines : List Str),
      (processLines ctx i lines).2 =
        (List.enumFrom i lines).filterMap (fun p =>
          match parseTransactionLine ctx p.2 with
          | some _ => none
          | none => some (str "Line " ++ natDigits (p.1 + 1) ++
              str ": Could not parse transaction line: " ++ p.2))) ∧
    parseTransactionLine ctx0 zeroAmtLine =
      some { date := str "2024-01-02", description := str "SHOP 0.0",
             amount := parseAmount (str "5.00"), balance := none, txType := none } := by
  refine ⟨?_, ?_, rfl⟩
  · intro ctx p ps toks caps hp h0 hne
    rw [parseAmount_eq_zero_iff] at h0
    rw [tryPatterns, hp]
    exact if_pos ⟨h0, hne⟩
  · intro ctx i lines
    rw [processLines_eq]

/-- C9 witness: the concrete pattern-1 match with a zero-normalizing amount
literal, and the loop's continuation with the remaining patterns. -/
theorem c9_zero_amount_retries_next_pattern_w :
    pat1 (words zeroAmtLine) =
      some ⟨str "01/02/2024", str "SHOP", str "0.0", some (str "5.00")⟩ ∧
    parseAmount (str "0.0") = 0 ∧ str "0.0" ≠ str "0.00" ∧
    tryPatterns ctx0 pdfPatterns (words zeroAmtLine) =
      tryPatterns ctx0 [pat2, pat3, pat4] (words zeroAmtLine) := by
  refine ⟨rfl, ?_, by decide, ?_⟩
  · rw [parseAmount_eq_zero_iff]
    decide
  · exact c9_zero_amount_retries_next_pattern.1 ctx0 pat1 [pat2, pat3, pat4]
      (words zeroAmtLine) ⟨str "01/02/2024", str "SHOP", str "0.0", some (str "5.00")⟩
      rfl (by rw [parseAmount_eq_zero_iff]; decide) (by decide)

/-! ### Success inversion of the two ingestors (used by C6 and C8) -/

/-- Auxiliary: what a successful `parseCSV` run determines about the
result. -/
theorem parseCSV_ok_inv {ctx : DateCtx} {headers : List Str} {rows : List (List Str)}
    {fn pa : Str} {res : ParsedFileResult}
    (h : parseCSV ctx headers rows fn pa = .ok res) :
    ∃ di de da,
      res.transactions = (processRows ctx di de da
          (findColumnIndex headers (bankMapping (detectBankFormat headers)).balance)
          (findColumnIndex headers (bankMapping (detectBankFormat headers)).ctype) 0 rows).1 ∧
      res.transactions ≠ [] ∧
      res.totalAmount = res.transactions.foldl (fun s t => s + |t.amount|) 0 ∧
      res.dateStart = (sortDates (res.transactions.map (·.date))).headD [] ∧
      res.dateEnd = (sortDates (res.transactions.map (·.date))).getLastD [] ∧
      res.rowCount = res.transactions.length := by
  simp only [parseCSV] at h
  split at h
  · exact absurd h (by simp)
  · split at h
    · rename_i di de da _ _ _
      split at h
      · exact absurd h (by simp)
      · rename_i hne
        rw [Except.ok.injEq] at h
        subst h
        exact ⟨di, de, da, rfl, hne, rfl, rfl, rfl, rfl⟩
    · exact absurd h (by simp)

/-- Auxiliary: what a successful `parseTransactionsFromText` run determines
about the result. -/
theorem parseTransactionsFromText_ok_inv {ctx : DateCtx} {text fn pa : Str}
    {res : ParsedFileResult}
    (h : parseTransactionsFromText ctx text fn pa = .ok res) :
    ∃ candidates : List Str,
      res.transactions = (processLines ctx 0 candidates).1 ∧
      res.transactions ≠ [] ∧
      res.totalAmount = res.transactions.foldl (fun s t => s + |t.amount|) 0 ∧
      res.dateStart = (sortDates (res.transactions.map (·.date))).headD [] ∧
      res.dateEnd = (sortDates (res.transactions.map (·.date))).getLastD [] ∧
      res.rowCount = res.transactions.length := by
  simp only [parseTransactionsFromText] at h
  split at h <;>
  · split at h
    · exact Except.noConfusion h
    · rename_i hne
      rw [Except.ok.injEq] at h
      subst h
      exact ⟨_, rfl, hne, rfl, rfl, rfl, rfl⟩

/-! ### Claim C6 — aggregate invariants of successful parses -/

/-- Auxiliary: the JavaScript string order is reflexive. -/
theorem lexLe_refl : ∀ l : Str, lexLe l l = true
  | [] => rfl
  | a :: t => by
    rw [lexLe, if_neg (Nat.lt_irrefl _), if_neg (Nat.lt_irrefl _)]
    exact lexLe_refl t

/-- Auxiliary: the JavaScript string order is total. -/
theorem lexLe_total : ∀ a b : Str, lexLe a b = true ∨ lexLe b a = true
  | [], _ => Or.inl rfl
  | _ :: _, [] => Or.inr rfl
  | a :: as, b :: bs => by
    rw [lexLe, lexLe]
    rcases Nat.lt_trichotomy a.toNat b.toNat with h | h | h
    · left; rw [if_pos h]
    · rw [if_neg (by omega), if_neg (by omega), if_neg (by omega), if_neg (by omega)]
      exact lexLe_total as bs
    · right; rw [if_pos h]

/-- Auxiliary: the JavaScript string order is transitive. -/
theorem lexLe_trans : ∀ a b c : Str, lexLe a b = true → lexLe b c = true → lexLe a c = true
  | [], _, _ => fun _ _ => rfl
  | _ :: _, [], _ => fun h _ => by rw [lexLe] at h; exact Bool.noConfusion h
  | _ :: _, _ :: _, [] => fun _ h => by rw [lexLe] at h; exact Bool.noConfusion h
  | a :: as, b :: bs, c :: cs => fun h1 h2 => by
    rw [lexLe] at h1 h2 ⊢
    by_cases hab : a.toNat < b.toNat
    · by_cases hbc : b.toNat < c.toNat
      · rw [if_pos (by omega)]
      · rw [if_neg hbc] at h2
        by_cases hcb : c.toNat < b.toNat
        · rw [if_pos hcb] at h2; exact Bool.noConfusion h2
        · rw [if_pos (by omega)]
    · rw [if_neg hab] at h1
      by_cases hba : b.toNat < a.toNat
      · rw [if_pos hba] at h1; exact Bool.noConfusion h1
      · rw [if_neg hba] at h1
        by_cases hbc : b.toNat < c.toNat
        · rw [if_pos (by omega)]
        · rw [if_neg hbc] at h2
          by_cases hcb : c.toNat < b.toNat
          · rw [if_pos hcb] at h2; exact Bool.noConfusion h2
          · rw [if_neg hcb] at h2
            rw [if_neg (by omega), if_neg (by omega)]
            exact lexLe_trans as bs cs h1 h2

/-- Auxiliary: the last element (with default) of a non-empty list is a
member. -/
theorem getLastD_mem : ∀ (l : List Str), l ≠ [] → l.getLastD [] ∈ l := by
  intro l hne
  rw [List.getLastD_eq_getLast?, List.getLast?_eq_getLast l hne]
  exact List.getLast_mem hne

/-- Auxiliary: in a `dateLe`-sorted non-empty list, the first element is
`lexLe` the last. -/
theorem sorted_headD_lexLe (l : List Str) (hs : List.Sorted dateLe l) (hne : l ≠ []) :
    lexLe (l.headD []) (l.getLastD []) = true := by
  cases l with
  | nil => exact absurd rfl hne
  | cons a t =>
    have hmem : (a :: t).getLastD [] ∈ a :: t := getLastD_mem _ (by simp)
    rw [List.headD_cons]
    rcases List.mem_cons.mp hmem with he | hm
    · rw [he]; exact lexLe_refl a
    · exact List.rel_of_sorted_cons hs _ hm

/-- Auxiliary: the running total fold is the sum of absolute amounts. -/
theorem foldl_abs_sum : ∀ (l : List RawTransaction) (init : ℚ),
    l.foldl (fun s t => s + |t.amount|) init = init + (l.map (fun t => |t.amount|)).sum
  | [], init => by simp
  | t :: ts, init => by
    rw [List.foldl_cons, foldl_abs_sum ts (init + |t.amount|), List.map_cons, List.sum_cons]
    ring

/-- Auxiliary: the three aggregate invariants follow from the shape of a
successful result. -/
theorem aggregate_invariants_of_shape (res : ParsedFileResult)
    (hne : res.transactions ≠ [])
    (htot : res.totalAmount = res.transactions.foldl (fun s t => s + |t.amount|) 0)
    (hs : res.dateStart = (sortDates (res.transactions.map (·.date))).headD [])
    (he : res.dateEnd = (sortDates (res.transactions.map (·.date))).getLastD [])
    (hr : res.rowCount = res.transactions.length) :
    res.totalAmount = (res.transactions.map (fun t => |t.amount|)).sum ∧
    lexLe res.dateStart res.dateEnd = true ∧
    res.rowCount = res.transactions.length := by
  refine ⟨by rw [htot, foldl_abs_sum]; ring, ?_, hr⟩
  rw [hs, he]
  apply sorted_headD_lexLe
  · exact @List.sorted_insertionSort Str dateLe _ ⟨lexLe_total⟩
      ⟨fun a b c => lexLe_trans a b c⟩ _
  · intro hnil
    have hlen := (List.perm_insertionSort dateLe (res.transactions.map (·.date))).length_eq
    have hsd : sortDates (res.transactions.map (·.date)) =
        List.insertionSort dateLe (res.transactions.map (·.date)) := rfl
    rw [← hsd, hnil] at hlen
    simp at hlen
    exact hne (List.length_eq_zero.mp hlen.symm)

/-- C6.  For every successfully parsed file (CSV or statement-text path),
`totalAmount` is the sum of the absolute values of the transaction amounts,
`dateStart` is lexically at most `dateEnd`, and `rowCount` is the number of
accepted transactions. -/
theorem c6_aggregate_invariants :
    (∀ (ctx : DateCtx) (headers : List Str) (rows : List (List Str)) (fn pa : Str)
        (res : ParsedFileResult),
      parseCSV ctx headers rows fn pa = .ok res →
      res.totalAmount = (res.transactions.map (fun t => |t.amount|)).sum ∧
      lexLe res.dateStart res.dateEnd = true ∧
      res.rowCount = res.transactions.length) ∧
    (∀ (ctx : DateCtx) (text fn pa : Str) (res : ParsedFileResult),
      parseTransactionsFromText ctx text fn pa = .ok res →
      res.totalAmount = (res.transactions.map (fun t => |t.amount|)).sum ∧
      lexLe res.dateStart res.dateEnd = true ∧
      res.rowCount = res.transactions.length) := by
  constructor
  · intro ctx headers rows fn pa res h
    obtain ⟨_, _, _, _, hne, htot, hs, he, hr⟩ := parseCSV_ok_inv h
    exact aggregate_invariants_of_shape res hne htot hs he hr
  · intro ctx text fn pa res h
    obtain ⟨_, _, hne, htot, hs, he, hr⟩ := parseTransactionsFromText_ok_inv h
    exact aggregate_invariants_of_shape res hne htot hs he hr

/-- C6 witness: both ingestors on concrete inputs. -/
theorem c6_aggregate_invariants_w :
    (∃ res, parseCSV ctx0 csvHeaders3 csvRows10 (str "a.csv") (str "now") = .ok res ∧
      (res.totalAmount = (res.transactions.map (fun t => |t.amount|)).sum ∧
       lexLe res.dateStart res.dateEnd = true ∧
       res.rowCount = res.transactions.length)) ∧
    (∃ res, parseTransactionsFromText ctx0
        (str "01/02/2024 SHOP 12.34\n01/03/2024 CAFE 5.00") (str "s.pdf") (str "now") = .ok res ∧
      (res.totalAmount = (res.transactions.map (fun t => |t.amount|)).sum ∧
       lexLe res.dateStart res.dateEnd = true ∧
       res.rowCount = res.transactions.length)) := by
  constructor
  · exact ⟨_, rfl, c6_aggregate_invariants.1 ctx0 csvHeaders3 csvRows10
      (str "a.csv") (str "now") _ rfl⟩
  · exact ⟨_, rfl, c6_aggregate_invariants.2 ctx0
      (str "01/02/2024 SHOP 12.34\n01/03/2024 CAFE 5.00") (str "s.pdf") (str "now") _ rfl⟩

/-! ### Claim C8 — every emitted transaction has a non-empty description -/

/-- Auxiliary: an accepted CSV row yields a non-empty description. -/
theorem processRow_ok_desc {ctx : DateCtx} {di de da : Nat} {bi ti : Option Nat}
    {rowNum : Nat} {row : List Str} {t : RawTransaction}
    (h : processRow ctx di de da bi ti rowNum row = .ok t) : t.description ≠ [] := by
  simp only [processRow] at h
  by_cases h1 : (trim (row.getD di []) = [] ∨ trim (row.getD de []) = [] ∨
      trim (row.getD da []) = [])
  · rw [if_pos h1] at h; exact Except.noConfusion h
  · rw [if_neg h1] at h
    by_cases h2 : ((parseAmountDec (trim (row.getD da []))).1 = 0 ∧
        trim (row.getD da []) ≠ str "0" ∧ trim (row.getD da []) ≠ str "0.00")
    · rw [if_pos h2] at h; exact Except.noConfusion h
    · rw [if_neg h2] at h
      rw [Except.ok.injEq] at h
      subst h
      intro hcon
      exact h1 (Or.inr (Or.inl hcon))

/-- Auxiliary: every transaction of the CSV row loop has a non-empty
description. -/
theorem processRows_desc (ctx : DateCtx) (di de da : Nat) (bi ti : Option Nat) :
    ∀ (i : Nat) (rows : List (List Str)) (t : RawTransaction),
      t ∈ (processRows ctx di de da bi ti i rows).1 → t.description ≠ []
  | _, [], t => by simp [processRows]
  | i, r :: rs, t => by
    intro ht
    rw [processRows] at ht
    cases hr : processRow ctx di de da bi ti (i + 2) r with
    | ok t0 =>
      rw [hr] at ht
      have ht2 : t = t0 ∨ t ∈ (processRows ctx di de da bi ti (i + 1) rs).1 :=
        List.mem_cons.mp ht
      rcases ht2 with rfl | ht3
      · exact processRow_ok_desc hr
      · exact processRows_desc ctx di de da bi ti (i + 1) rs t ht3
    | error e =>
      rw [hr] at ht
      exact processRows_desc ctx di de da bi ti (i + 1) rs t ht

/-- Auxiliary: every token produced by `words` is non-empty. -/
theorem words_ne : ∀ l : Str, ∀ w ∈ words l, w ≠ []
  | [] => by simp [words]
  | [c] => by
    intro w hw
    rw [words] at hw
    split at hw
    · exact absurd hw (List.not_mem_nil w)
    · simp only [List.mem_singleton] at hw
      subst hw
      simp
  | a :: b :: t => by
    intro w hw
    rw [words] at hw
    split at hw
    · exact words_ne (b :: t) w hw
    · split at hw
      · rcases List.mem_cons.mp hw with rfl | hw2
        · simp
        · exact words_ne t w hw2
      · split at hw
        · rename_i hd tl heq
          rcases List.mem_cons.mp hw with rfl | hw2
          · simp
          · have hmem : w ∈ words (b :: t) := heq ▸ List.mem_cons_of_mem hd hw2
            exact words_ne (b :: t) w hmem
        · simp only [List.mem_singleton] at hw
          subst hw
          simp

/-- Auxiliary: no token produced by `words` contains whitespace. -/
theorem words_nospace : ∀ l : Str, ∀ w ∈ words l, ∀ c ∈ w, isJsSpace c = false
  | [] => by simp [words]
  | [x] => by
    intro w hw c hc
    rw [words] at hw
    split at hw
    · exact absurd hw (List.not_mem_nil w)
    · rename_i hx
      simp only [List.mem_singleton] at hw
      subst hw
      simp only [List.mem_singleton] at hc
      subst hc
      simpa using hx
  | a :: b :: t => by
    intro w hw c hc
    rw [words] at hw
    split at hw
    · exact words_nospace (b :: t) w hw c hc
    · rename_i ha
      split at hw
      · rcases List.mem_cons.mp hw with rfl | hw2
        · simp only [List.mem_singleton] at hc
          subst hc
          simpa using ha
        · exact words_nospace t w hw2 c hc
      · split at hw
        · rename_i hd tl heq
          rcases List.mem_cons.mp hw with rfl | hw2
          · rcases List.mem_cons.mp hc with rfl | hc2
            · simpa using ha
            · have hmem : hd ∈ words (b :: t) := heq ▸ List.mem_cons_self hd tl
              exact words_nospace (b :: t) hd hmem c hc2
          · have hmem : w ∈ words (b :: t) := heq ▸ List.mem_cons_of_mem hd hw2
            exact words_nospace (b :: t) w hmem c hc
        · simp only [List.mem_singleton] at hw
          subst hw
          simp only [List.mem_singleton] at hc
          subst hc
          simpa using ha

/-- Auxiliary: a character that survives the strip also survives
`dropWhile`. -/
theorem mem_dropWhile_of_not (p : Char → Bool) : ∀ (l : Str) (c : Char),
    c ∈ l → p c = false → c ∈ l.dropWhile p
  | [], c => by simp
  | a :: t, c => fun hc hpc => by
    rw [List.dropWhile_cons]
    split
    · rename_i hpa
      rcases List.mem_cons.mp hc with rfl | hm
      · rw [hpc] at hpa; exact Bool.noConfusion hpa
      · exact mem_dropWhile_of_not p t c hm hpc
    · exact hc

/-- Auxiliary: a string containing a non-whitespace character does not trim
to the empty string. -/
theorem trim_ne_of_mem (l : Str) (c : Char) (hc : c ∈ l) (hns : isJsSpace c = false) :
    trim l ≠ [] := by
  unfold trim
  intro hcon
  have h1 := mem_dropWhile_of_not isJsSpace l c hc hns
  have h2 := List.mem_reverse.mpr h1
  have h3 := mem_dropWhile_of_not isJsSpace _ c h2 hns
  have h4 := List.mem_reverse.mpr h3
  rw [hcon] at h4
  exact List.not_mem_nil c h4

/-- Auxiliary: characters of the blocks occur in the separator-join. -/
theorem mem_joinSep (sep : Str) : ∀ (blocks : List Str) (b : Str) (c : Char),
    b ∈ blocks → c ∈ b → c ∈ joinSep sep blocks
  | [], b, c => by simp
  | [x], b, c => fun hb hc => by
    simp only [List.mem_singleton] at hb
    subst hb
    exact hc
  | x :: y :: bs, b, c => fun hb hc => by
    rw [joinSep]
    rcases List.mem_cons.mp hb with rfl | hb2
    · exact List.mem_append.mpr (Or.inl (List.mem_append.mpr (Or.inl hc)))
    · exact List.mem_append.mpr (Or.inr (mem_joinSep sep (y :: bs) b c hb2 hc))

/-- Auxiliary: a captured description — the space-join of a non-empty
sub-segment of the line's tokens — does not trim to the empty string. -/
theorem desc_nonempty_of_segment (seg toks : List Str)
    (hsub : ∀ w ∈ seg, w ∈ toks) (hne : seg ≠ [])
    (htoksne : ∀ w ∈ toks, w ≠ [])
    (hnospace : ∀ w ∈ toks, ∀ c ∈ w, isJsSpace c = false) :
    trim (joinSep [' '] seg) ≠ [] := by
  obtain ⟨w0, ws, rfl⟩ := List.exists_cons_of_ne_nil hne
  have hw0 : w0 ∈ toks := hsub w0 (List.mem_cons_self _ _)
  obtain ⟨c, cs, rfl⟩ := List.exists_cons_of_ne_nil (htoksne w0 hw0)
  have hcj := mem_joinSep [' '] ((c :: cs) :: ws) (c :: cs) c
    (List.mem_cons_self _ _) (List.mem_cons_self _ _)
  exact trim_ne_of_mem _ c hcj (hnospace _ hw0 c (List.mem_cons_self _ _))

/-- Auxiliary: pattern 1 captures a description that does not trim empty. -/
theorem pat1_desc {toks : List Str} {caps : LineCaps} (h : pat1 toks = some caps)
    (htoksne : ∀ w ∈ toks, w ≠ [])
    (hnospace : ∀ w ∈ toks, ∀ c ∈ w, isJsSpace c = false) :
    trim caps.descr ≠ [] := by
  cases toks with
  | nil => exact Option.noConfusion h
  | cons t0 rest =>
    simp only [pat1] at h
    by_cases h1 : (isSlashDateTok t0 = true ∧ 3 ≤ rest.length)
    · rw [if_pos h1] at h
      by_cases h2 : (amtTok (rest.getD (rest.length - 2) []) = true ∧
          amtTok (rest.getD (rest.length - 1) []) = true)
      · rw [if_pos h2, Option.some.injEq] at h
        subst h
        apply desc_nonempty_of_segment (rest.take (rest.length - 2)) (t0 :: rest)
          _ _ htoksne hnospace
        · intro w hw
          exact List.mem_cons_of_mem _ (List.take_subset _ _ hw)
        · intro hcon
          have hlen := congrArg List.length hcon
          simp [List.length_take] at hlen
          omega
      · rw [if_neg h2] at h; exact Option.noConfusion h
    · rw [if_neg h1] at h; exact Option.noConfusion h

/-- Auxiliary: pattern 2 captures a description that does not trim empty. -/
theorem pat2_desc {toks : List Str} {caps : LineCaps} (h : pat2 toks = some caps)
    (htoksne : ∀ w ∈ toks, w ≠ [])
    (hnospace : ∀ w ∈ toks, ∀ c ∈ w, isJsSpace c = false) :
    trim caps.descr ≠ [] := by
  cases toks with
  | nil => exact Option.noConfusion h
  | cons t0 rest =>
    simp only [pat2] at h
    by_cases h1 : (isSlashDateTok t0 = true ∧ 2 ≤ rest.length)
    · rw [if_pos h1] at h
      by_cases h2 : amtTok (rest.getD (rest.length - 1) []) = true
      · rw [if_pos h2, Option.some.injEq] at h
        subst h
        apply desc_nonempty_of_segment (rest.take (rest.length - 1)) (t0 :: rest)
          _ _ htoksne hnospace
        · intro w hw
          exact List.mem_cons_of_mem _ (List.take_subset _ _ hw)
        · intro hcon
          have hlen := congrArg List.length hcon
          simp [List.length_take] at hlen
          omega
      · rw [if_neg h2] at h; exact Option.noConfusion h
    · rw [if_neg h1] at h; exact Option.noConfusion h

/-- Auxiliary: pattern 3 captures a description that does not trim empty. -/
theorem pat3_desc {toks : List Str} {caps : LineCaps} (h : pat3 toks = some caps)
    (htoksne : ∀ w ∈ toks, w ≠ [])
    (hnospace : ∀ w ∈ toks, ∀ c ∈ w, isJsSpace c = false) :
    trim caps.descr ≠ [] := by
  match toks with
  | [] => exact Option.noConfusion h
  | [_] => exact Option.noConfusion h
  | t0 :: t1 :: rest =>
    simp only [pat3] at h
    by_cases h1 : (isSlashDateTok t0 = true ∧ amtTok t1 = true ∧ rest ≠ [])
    · rw [if_pos h1, Option.some.injEq] at h
      subst h
      apply desc_nonempty_of_segment rest (t0 :: t1 :: rest)
        _ h1.2.2 htoksne hnospace
      intro w hw
      exact List.mem_cons_of_mem _ (List.mem_cons_of_mem _ hw)
    · rw [if_neg h1] at h; exact Option.noConfusion h

/-- Auxiliary: pattern 4 captures a description that does not trim empty. -/
theorem pat4_desc {toks : List Str} {caps : LineCaps} (h : pat4 toks = some caps)
    (htoksne : ∀ w ∈ toks, w ≠ [])
    (hnospace : ∀ w ∈ toks, ∀ c ∈ w, isJsSpace c = false) :
    trim caps.descr ≠ [] := by
  cases toks with
  | nil => exact Option.noConfusion h
  | cons t0 rest =>
    simp only [pat4] at h
    by_cases h0 : isIsoDateTok t0 = true
    · rw [if_pos h0] at h
      by_cases h1 : (3 ≤ rest.length ∧ amtTok (rest.getD (rest.length - 2) []) = true ∧
          amtTok (rest.getD (rest.length - 1) []) = true)
      · rw [if_pos h1, Option.some.injEq] at h
        subst h
        apply desc_nonempty_of_segment (rest.take (rest.length - 2)) (t0 :: rest)
          _ _ htoksne hnospace
        · intro w hw
          exact List.mem_cons_of_mem _ (List.take_subset _ _ hw)
        · intro hcon
          have hlen := congrArg List.length hcon
          simp [List.length_take] at hlen
          omega
      · rw [if_neg h1] at h
        by_cases h2 : (2 ≤ rest.length ∧ amtTok (rest.getD (rest.length - 1) []) = true)
        · rw [if_pos h2, Option.some.injEq] at h
          subst h
          apply desc_nonempty_of_segment (rest.take (rest.length - 1)) (t0 :: rest)
            _ _ htoksne hnospace
          · intro w hw
            exact List.mem_cons_of_mem _ (List.take_subset _ _ hw)
          · intro hcon
            have hlen := congrArg List.length hcon
            simp [List.length_take] at hlen
            omega
        · rw [if_neg h2] at h; exact Option.noConfusion h
    · rw [if_neg h0] at h; exact Option.noConfusion h

/-- Auxiliary: a successful pattern-loop step either comes from the head
pattern (with the description built from its captures) or from the rest of
the list. -/
theorem tryPatterns_some {ctx : DateCtx} {p : List Str → Option LineCaps}
    {ps : List (List Str → Option LineCaps)} {toks : List Str} {t : RawTransaction}
    (h : tryPatterns ctx (p :: ps) toks = some t) :
    (∃ caps, p toks = some caps ∧ t.description = trim caps.descr) ∨
    tryPatterns ctx ps toks = some t := by
  rw [tryPatterns] at h
  cases hp : p toks with
  | none => rw [hp] at h; exact Or.inr h
  | some caps =>
    rw [hp] at h
    have h2 : (if (parseAmountDec caps.amountStr).1 = 0 ∧ caps.amountStr ≠ str "0.00" then
        tryPatterns ctx ps toks
      else
        some { date := parseDatePdf ctx caps.dateStr
               description := trim caps.descr
               amount := parseAmount caps.amountStr
               balance :=
                 match caps.balanceStr with
                 | some b => if (parseAmountDec b).1 ≠ 0 then some (parseAmount b) else none
                 | none => none
               txType := none }) = some t := h
    by_cases hrej : ((parseAmountDec caps.amountStr).1 = 0 ∧ caps.amountStr ≠ str "0.00")
    · rw [if_pos hrej] at h2
      exact Or.inr h2
    · rw [if_neg hrej, Option.some.injEq] at h2
      subst h2
      exact Or.inl ⟨caps, rfl, rfl⟩

/-- Auxiliary: every parsed statement line has a non-empty description. -/
theorem parseTransactionLine_desc (ctx : DateCtx) (line : Str) (t : RawTransaction)
    (h : parseTransactionLine ctx line = some t) : t.description ≠ [] := by
  have htoksne := words_ne line
  have hnospace := words_nospace line
  unfold parseTransactionLine at h
  rcases tryPatterns_some h with ⟨caps, hp, hd⟩ | h
  · rw [hd]; exact pat1_desc hp htoksne hnospace
  rcases tryPatterns_some h with ⟨caps, hp, hd⟩ | h
  · rw [hd]; exact pat2_desc hp htoksne hnospace
  rcases tryPatterns_some h with ⟨caps, hp, hd⟩ | h
  · rw [hd]; exact pat3_desc hp htoksne hnospace
  rcases tryPatterns_some h with ⟨caps, hp, hd⟩ | h
  · rw [hd]; exact pat4_desc hp htoksne hnospace
  exact Option.noConfusion h

/-- Auxiliary: every transaction of the statement line loop has a non-empty
description. -/
theorem processLines_desc (ctx : DateCtx) :
    ∀ (i : Nat) (lines : List Str) (t : RawTransaction),
      t ∈ (processLines ctx i lines).1 → t.description ≠ []
  | _, [], t => by simp [processLines]
  | i, l :: ls, t => by
    intro ht
    rw [processLines] at ht
    cases hr : parseTransactionLine ctx l with
    | some t0 =>
      rw [hr] at ht
      have ht2 : t = t0 ∨ t ∈ (processLines ctx (i + 1) ls).1 := List.mem_cons.mp ht
      rcases ht2 with rfl | ht3
      · exact parseTransactionLine_desc ctx l t hr
      · exact processLines_desc ctx (i + 1) ls t ht3
    | none =>
      rw [hr] at ht
      exact processLines_desc ctx (i + 1) ls t ht

/-- C8.  Every `RawTransaction` in the transaction list of a successful
`ParsedFileResult` — from either ingestor — has a non-empty description
(the amount is a rational number by construction, zero allowed); failing
rows never appear in the sequence (they are diverted to `errors`, cf. the
C5 characterization). -/
theorem c8_descriptions_nonempty :
    (∀ (ctx : DateCtx) (headers : List Str) (rows : List (List Str)) (fn pa : Str)
        (res : ParsedFileResult),
      parseCSV ctx headers rows fn pa = .ok res →
      ∀ t ∈ res.transactions, t.description ≠ []) ∧
    (∀ (ctx : DateCtx) (text fn pa : Str) (res : ParsedFileResult),
      parseTransactionsFromText ctx text fn pa = .ok res →
      ∀ t ∈ res.transactions, t.description ≠ []) := by
  constructor
  · intro ctx headers rows fn pa res h t ht
    obtain ⟨di, de, da, htx, _, _, _, _, _⟩ := parseCSV_ok_inv h
    rw [htx] at ht
    exact processRows_desc ctx di de da _ _ 0 rows t ht
  · intro ctx text fn pa res h t ht
    obtain ⟨cands, htx, _, _, _, _, _⟩ := parseTransactionsFromText_ok_inv h
    rw [htx] at ht
    exact processLines_desc ctx 0 cands t ht

/-- C8 witness: both ingestors on concrete inputs. -/
theorem c8_descriptions_nonempty_w :
    (∃ res, parseCSV ctx0 csvHeaders3 csvRows10 (str "a.csv") (str "now") = .ok res ∧
      ∀ t ∈ res.transactions, t.description ≠ []) ∧
    (∃ res, parseTransactionsFromText ctx0
        (str "01/02/2024 SHOP 12.34\n01/03/2024 CAFE 5.00") (str "s.pdf") (str "now") = .ok res ∧
      ∀ t ∈ res.transactions, t.description ≠ []) := by
  constructor
  · exact ⟨_, rfl, c8_descriptions_nonempty.1 ctx0 csvHeaders3 csvRows10
      (str "a.csv") (str "now") _ rfl⟩
  · exact ⟨_, rfl, c8_descriptions_nonempty.2 ctx0
      (str "01/02/2024 SHOP 12.34\n01/03/2024 CAFE 5.00") (str "s.pdf") (str "now") _ rfl⟩

/-! ### Claim C2 — decorated-amount round-trip -/

/-- Auxiliary: `jsExp` with an empty remainder. -/
theorem jsExp_nil (base : Dec) : jsExp base [] = base := rfl

/-- Auxiliary: digits are not JavaScript whitespace. -/
theorem isJsSpace_digit {c : Char} (h : c.isDigit = true) : isJsSpace c = false := by
  cases hs : isJsSpace c
  · rfl
  · exfalso
    simp only [isJsSpace, Bool.or_eq_true, decide_eq_true_eq] at hs
    rcases hs with ((((((rfl | rfl) | rfl) | rfl) | rfl) | rfl) | rfl) <;>
      exact absurd h (by decide)

/-- Auxiliary: digits are not the minus sign. -/
theorem digit_ne_dash {c : Char} (h : c.isDigit = true) : ¬(c = '-') :=
  fun hc => absurd (hc ▸ h) (by decide)

/-- Auxiliary: digits are not the plus sign. -/
theorem digit_ne_plus {c : Char} (h : c.isDigit = true) : ¬(c = '+') :=
  fun hc => absurd (hc ▸ h) (by decide)

/-- Auxiliary: `takeWhile` passes through an all-satisfying block. -/
theorem takeWhile_append_all (p : Char → Bool) :
    ∀ l1 l2 : Str, (∀ c ∈ l1, p c = true) →
      (l1 ++ l2).takeWhile p = l1 ++ l2.takeWhile p
  | [], _, _ => rfl
  | a :: as, l2, h => by
    have ha : p a = true := h a (List.mem_cons_self a as)
    show (a :: (as ++ l2)).takeWhile p = a :: (as ++ l2.takeWhile p)
    rw [List.takeWhile_cons, if_pos ha,
      takeWhile_append_all p as l2 (fun c hc => h c (List.mem_cons_of_mem _ hc))]

/-- Auxiliary: `dropWhile` passes through an all-satisfying block. -/
theorem dropWhile_append_all (p : Char → Bool) :
    ∀ l1 l2 : Str, (∀ c ∈ l1, p c = true) →
      (l1 ++ l2).dropWhile p = l2.dropWhile p
  | [], _, _ => rfl
  | a :: as, l2, h => by
    have ha : p a = true := h a (List.mem_cons_self a as)
    show (a :: (as ++ l2)).dropWhile p = l2.dropWhile p
    rw [List.dropWhile_cons, if_pos ha,
      dropWhile_append_all p as l2 (fun c hc => h c (List.mem_cons_of_mem _ hc))]

/-- Auxiliary: `takeWhile` fixes an all-satisfying string. -/
theorem takeWhile_all_eq (p : Char → Bool) :
    ∀ l : Str, (∀ c ∈ l, p c = true) → l.takeWhile p = l
  | [], _ => rfl
  | a :: as, h => by
    have ha : p a = true := h a (List.mem_cons_self a as)
    rw [List.takeWhile_cons, if_pos ha,
      takeWhile_all_eq p as (fun c hc => h c (List.mem_cons_of_mem _ hc))]

/-- Auxiliary: `dropWhile` empties an all-satisfying string. -/
theorem dropWhile_all_eq (p : Char → Bool) :
    ∀ l : Str, (∀ c ∈ l, p c = true) → l.dropWhile p = []
  | [], _ => rfl
  | a :: as, h => by
    have ha : p a = true := h a (List.mem_cons_self a as)
    rw [List.dropWhile_cons, if_pos ha,
      dropWhile_all_eq p as (fun c hc => h c (List.mem_cons_of_mem _ hc))]

/-- Auxiliary: initial whitespace skipping is the identity on a signed
digit-headed string. -/
theorem dropWhile_core (neg : Bool) (c : Char) (cs : Str) (hc : c.isDigit = true) :
    ((if neg then ['-'] else []) ++ (c :: cs)).dropWhile isJsSpace =
      (if neg then ['-'] else []) ++ (c :: cs) := by
  cases neg with
  | false =>
    show (c :: cs).dropWhile isJsSpace = c :: cs
    rw [List.dropWhile_cons, if_neg (by simp [isJsSpace_digit hc])]
  | true => rfl

/-- Auxiliary: the sign step of `jsParseFloat` on a signed digit-headed
string. -/
theorem jsSign_step (neg : Bool) (c : Char) (cs : Str) (hc : c.isDigit = true) :
    jsSign ((if neg then ['-'] else []) ++ (c :: cs)) =
      ((if neg then (-1 : Int) else 1), c :: cs) := by
  cases neg with
  | false =>
    show jsSign (c :: cs) = ((1 : Int), c :: cs)
    simp only [jsSign]
    rw [if_neg (digit_ne_dash hc), if_neg (digit_ne_plus hc)]
  | true => rfl

/-- Auxiliary: `jsParseFloat` on the comma-free core numeral evaluates to the
signed positional value as an exact decimal. -/
theorem jsParseFloat_core (neg : Bool) (blocks : List Str) (fr : Option Str)
    (hd : ∀ c ∈ blocks.flatten, c.isDigit = true)
    (hf : ∀ c ∈ fr.getD [], c.isDigit = true)
    (hne : blocks.flatten ≠ []) :
    jsParseFloat (coreStr neg blocks fr) =
      some ((if neg then (-1 : Int) else 1) *
          ((natOfDigits blocks.flatten : Int) * (10 : Int) ^ (fr.getD []).length +
            (natOfDigits (fr.getD []) : Int)),
        (fr.getD []).length) := by
  obtain ⟨c, cs, hB⟩ : ∃ c cs, blocks.flatten = c :: cs := by
    cases hBx : blocks.flatten with
    | nil => exact absurd hBx hne
    | cons c cs => exact ⟨c, cs, rfl⟩
  rw [hB] at hd
  have hc : c.isDigit = true := hd c (List.mem_cons_self c cs)
  cases fr with
  | some f =>
    have hf' : ∀ x ∈ f, x.isDigit = true := fun x hx => hf x hx
    simp only [coreStr]
    rw [hB, List.append_assoc, List.cons_append]
    simp only [jsParseFloat]
    rw [dropWhile_core neg c (cs ++ '.' :: f) hc]
    have hS := jsSign_step neg c (cs ++ '.' :: f) hc
    have hS1 : (jsSign ((if neg then ['-'] else []) ++ (c :: (cs ++ '.' :: f)))).1 =
        (if neg then (-1 : Int) else 1) := by rw [hS]
    have hS2 : (jsSign ((if neg then ['-'] else []) ++ (c :: (cs ++ '.' :: f)))).2 =
        c :: (cs ++ '.' :: f) := by rw [hS]
    rw [hS1, hS2]
    have e3 : (c :: (cs ++ '.' :: f)).takeWhile Char.isDigit = c :: cs := by
      have h1 := takeWhile_append_all Char.isDigit (c :: cs) ('.' :: f) hd
      rw [List.cons_append] at h1
      rw [h1, List.takeWhile_cons, if_neg (by decide)]
      simp
    have e4 : (c :: (cs ++ '.' :: f)).dropWhile Char.isDigit = '.' :: f := by
      have h1 := dropWhile_append_all Char.isDigit (c :: cs) ('.' :: f) hd
      rw [List.cons_append] at h1
      rw [h1, List.dropWhile_cons, if_neg (by decide)]
    rw [e3, e4]
    show (if (c :: cs : Str) = [] ∧ List.takeWhile Char.isDigit f = [] then none
      else some (jsExp ((if neg then (-1 : Int) else 1) *
          ((natOfDigits (c :: cs) : Int) *
              (10 : Int) ^ (List.takeWhile Char.isDigit f).length +
            (natOfDigits (List.takeWhile Char.isDigit f) : Int)),
          (List.takeWhile Char.isDigit f).length)
        (List.dropWhile Char.isDigit f))) =
      some ((if neg then (-1 : Int) else 1) *
        ((natOfDigits (c :: cs) : Int) * (10 : Int) ^ f.length + (natOfDigits f : Int)),
        f.length)
    rw [takeWhile_all_eq Char.isDigit f hf', dropWhile_all_eq Char.isDigit f hf',
      if_neg (fun hx => List.cons_ne_nil c cs hx.1), jsExp_nil]
  | none =>
    simp only [coreStr]
    rw [List.append_nil, hB]
    simp only [jsParseFloat]
    rw [dropWhile_core neg c cs hc]
    have hS := jsSign_step neg c cs hc
    have hS1 : (jsSign ((if neg then ['-'] else []) ++ (c :: cs))).1 =
        (if neg then (-1 : Int) else 1) := by rw [hS]
    have hS2 : (jsSign ((if neg then ['-'] else []) ++ (c :: cs))).2 = c :: cs := by
      rw [hS]
    rw [hS1, hS2]
    rw [takeWhile_all_eq Char.isDigit (c :: cs) hd,
      dropWhile_all_eq Char.isDigit (c :: cs) hd]
    show (if (c :: cs : Str) = [] ∧ ([] : Str) = [] then none
      else some (jsExp ((if neg then (-1 : Int) else 1) *
          ((natOfDigits (c :: cs) : Int) * (10 : Int) ^ (([] : Str)).length +
            (natOfDigits ([] : Str) : Int)),
          (([] : Str)).length)
        ([] : Str))) =
      some ((if neg then (-1 : Int) else 1) *
        ((natOfDigits (c :: cs) : Int) * (10 : Int) ^ (([] : Str)).length +
          (natOfDigits ([] : Str) : Int)),
        (([] : Str)).length)
    rw [if_neg (fun hx => List.cons_ne_nil c cs hx.1), jsExp_nil]

/-- Auxiliary: the rational denoted by the parsed core numeral is its
specification-side value. -/
theorem ratOfDec_core (neg : Bool) (blocks : List Str) (fr : Option Str) :
    ratOfDec ((if neg then (-1 : Int) else 1) *
        ((natOfDigits blocks.flatten : Int) * (10 : Int) ^ (fr.getD []).length +
          (natOfDigits (fr.getD []) : Int)),
      (fr.getD []).length) = numeralVal neg blocks fr := by
  have h10 : ((10 : ℚ) ^ (fr.getD []).length) ≠ 0 := by positivity
  cases neg <;>
    · simp only [ratOfDec, numeralVal]
      norm_num
      field_simp

/-- Auxiliary: negating the mantissa's absolute value negates the absolute
denoted rational. -/
theorem ratOfDec_negAbs (m : Int) (k : Nat) :
    ratOfDec (-(m.natAbs : Int), k) = -|ratOfDec (m, k)| := by
  simp only [ratOfDec]
  push_cast [Int.cast_natAbs]
  rw [abs_div, abs_of_nonneg (by positivity : (0 : ℚ) ≤ (10 : ℚ) ^ k)]
  ring

/-- C2.  First conjunct: on any string whose decoration-stripped remainder
is the core of a decimal numeral (optional sign, digit blocks, optional
fraction — i.e. any decoration of that numeral by currency symbols, comma
separators, whitespace and parentheses), `parseAmount` returns the numeral's
undecorated value, negated to minus its absolute value exactly when both
`(` and `)` occur in the original string.  Second conjunct: empty or
whitespace-only input returns `0`.  Third conjunct: any input whose stripped
remainder does not parse as a number (`parseFloat` gives `NaN`) returns
`0`. -/
theorem c2_amount_roundtrip :
    (∀ (value : Str) (neg : Bool) (blocks : List Str) (fr : Option Str),
        (∀ c ∈ blocks.flatten, c.isDigit = true) →
        (∀ c ∈ fr.getD [], c.isDigit = true) →
        blocks.flatten ≠ [] →
        value.filter (fun c => !(isStripped c)) = coreStr neg blocks fr →
        parseAmount value =
          (if (value.contains '(' && value.contains ')') = true
           then -|numeralVal neg blocks fr|
           else numeralVal neg blocks fr)) ∧
    (∀ value : Str, value.all isJsSpace = true → parseAmount value = 0) ∧
    (∀ value : Str,
        jsParseFloat (value.filter (fun c => !(isStripped c))) = none →
        parseAmount value = 0) := by
  refine ⟨?_, ?_, ?_⟩
  · intro value neg blocks fr hd hf hne hclean
    have hnotspace : ¬(value.all isJsSpace = true) := by
      intro hall
      have hfe : value.filter (fun c => !(isStripped c)) = [] := by
        rw [List.filter_eq_nil_iff]
        intro a ha
        have hsp := List.all_eq_true.mp hall a ha
        simp [isStripped, hsp]
      have hcore : coreStr neg blocks fr = [] := hclean.symm.trans hfe
      obtain ⟨c, cs, hB⟩ : ∃ c cs, blocks.flatten = c :: cs := by
        cases hBx : blocks.flatten with
        | nil => exact absurd hBx hne
        | cons c cs => exact ⟨c, cs, rfl⟩
      simp [coreStr, hB] at hcore
    simp only [parseAmount, parseAmountDec]
    rw [if_neg hnotspace, hclean, jsParseFloat_core neg blocks fr hd hf hne]
    show ratOfDec
        (if (value.contains '(' && value.contains ')') = true then
          (-(((if neg then (-1 : Int) else 1) *
              ((natOfDigits blocks.flatten : Int) * (10 : Int) ^ (fr.getD []).length +
                (natOfDigits (fr.getD []) : Int))).natAbs : Int),
            (fr.getD []).length)
        else
          ((if neg then (-1 : Int) else 1) *
              ((natOfDigits blocks.flatten : Int) * (10 : Int) ^ (fr.getD []).length +
                (natOfDigits (fr.getD []) : Int)),
            (fr.getD []).length)) =
      if (value.contains '(' && value.contains ')') = true then -|numeralVal neg blocks fr|
      else numeralVal neg blocks fr
    by_cases hp : (value.contains '(' && value.contains ')') = true
    · rw [if_pos hp, if_pos hp, ratOfDec_negAbs, ratOfDec_core]
    · rw [if_neg hp, if_neg hp, ratOfDec_core]
  · intro value hall
    simp only [parseAmount, parseAmountDec]
    rw [if_pos hall]
    simp [ratOfDec]
  · intro value hnone
    simp only [parseAmount, parseAmountDec]
    by_cases hall : value.all isJsSpace = true
    · rw [if_pos hall]
      simp [ratOfDec]
    · rw [if_neg hall, hnone]
      simp [ratOfDec]

/-- C2 witness: `"$(1,234.56)"` round-trips to the negated undecorated
value; whitespace-only and non-numeric inputs give `0`. -/
theorem c2_amount_roundtrip_w :
    parseAmount (str "$(1,234.56)") =
      -|numeralVal false [str "1", str "234"] (some (str "56"))| ∧
    parseAmount (str "   ") = 0 ∧
    parseAmount (str "abc") = 0 := by
  refine ⟨?_, c2_amount_roundtrip.2.1 (str "   ") (by decide),
    c2_amount_roundtrip.2.2 (str "abc") (by decide)⟩
  have h := c2_amount_roundtrip.1 (str "$(1,234.56)") false [str "1", str "234"]
    (some (str "56")) (by decide) (by decide) (by decide) (by decide)
  rw [h, if_pos (by decide :
    ((str "$(1,234.56)").contains '(' && (str "$(1,234.56)").contains ')') = true)]

/-! ### Claim C3 — magnitude disambiguation of ambiguous slashed dates -/

/-- Auxiliary: the fuel of the decimal renderer is irrelevant once
sufficient. -/
theorem natDigitsF_fuel : ∀ (n f : Nat), n < f → natDigitsF f n = natDigits n := by
  intro n
  induction n using Nat.strong_induction_on with
  | _ n ih =>
    intro f hf
    cases f with
    | zero => omega
    | succ f =>
      by_cases h10 : n < 10
      · simp only [natDigitsF, natDigits]
        rw [if_pos h10, if_pos h10]
      · have hdiv : n / 10 < n := Nat.div_lt_self (by omega) (by omega)
        simp only [natDigitsF, natDigits]
        rw [if_neg h10, if_neg h10, ih (n / 10) hdiv f (by omega),
          ih (n / 10) hdiv n (by omega)]

/-- Auxiliary: the unfolding equation of the decimal renderer. -/
theorem natDigits_eq (n : Nat) :
    natDigits n =
      if n < 10 then [digitChar n]
      else natDigits (n / 10) ++ [digitChar (n % 10)] := by
  have h0 : natDigits n = if n < 10 then [digitChar n]
      else natDigitsF n (n / 10) ++ [digitChar (n % 10)] := rfl
  rw [h0]
  by_cases h10 : n < 10
  · rw [if_pos h10, if_pos h10]
  · rw [if_neg h10, if_neg h10,
      natDigitsF_fuel (n / 10) n (Nat.div_lt_self (by omega) (by omega))]

/-- Auxiliary: rendered digit characters are digits. -/
theorem digitChar_isDigit {k : Nat} (h : k < 10) : (digitChar k).isDigit = true := by
  interval_cases k <;> decide

/-- Auxiliary: reading back a rendered digit character. -/
theorem digitVal_digitChar {k : Nat} (h : k < 10) : digitVal (digitChar k) = k := by
  interval_cases k <;> decide

/-- Auxiliary: every character of a rendered natural is a digit. -/
theorem natDigits_all_digit : ∀ n : Nat, ∀ ch ∈ natDigits n, ch.isDigit = true := by
  intro n
  induction n using Nat.strong_induction_on with
  | _ n ih =>
    intro ch hch
    rw [natDigits_eq] at hch
    by_cases h10 : n < 10
    · rw [if_pos h10] at hch
      have := List.mem_singleton.mp hch
      subst this
      exact digitChar_isDigit h10
    · rw [if_neg h10] at hch
      rcases List.mem_append.mp hch with h1 | h1
      · exact ih (n / 10) (Nat.div_lt_self (by omega) (by omega)) ch h1
      · have := List.mem_singleton.mp h1
        subst this
        exact digitChar_isDigit (Nat.mod_lt n (by omega))

/-- Auxiliary: positional reading of one appended digit. -/
theorem natOfDigits_snoc (xs : Str) (d : Char) :
    natOfDigits (xs ++ [d]) = 10 * natOfDigits xs + digitVal d := by
  simp only [natOfDigits, List.foldl_append, List.foldl_cons, List.foldl_nil]

/-- Auxiliary: `parseInt` of `String(n)` round-trips. -/
theorem natOfDigits_natDigits : ∀ n : Nat, natOfDigits (natDigits n) = n := by
  intro n
  induction n using Nat.strong_induction_on with
  | _ n ih =>
    rw [natDigits_eq]
    by_cases h10 : n < 10
    · rw [if_pos h10]
      simp only [natOfDigits, List.foldl_cons, List.foldl_nil]
      rw [digitVal_digitChar h10]
      omega
    · rw [if_neg h10, natOfDigits_snoc,
        ih (n / 10) (Nat.div_lt_self (by omega) (by omega)),
        digitVal_digitChar (Nat.mod_lt n (by omega))]
      omega

/-- Auxiliary: a rendered natural has at least one digit. -/
theorem natDigits_len_ge1 (n : Nat) : 1 ≤ (natDigits n).length := by
  rw [natDigits_eq]
  by_cases h10 : n < 10
  · rw [if_pos h10]; simp
  · rw [if_neg h10]; simp

/-- Auxiliary: digit-count upper bound of a rendered natural. -/
theorem natDigits_length_le : ∀ (k n : Nat), n < 10 ^ (k + 1) →
    (natDigits n).length ≤ k + 1
  | 0, n, h => by
    have h' : n < 10 := by simpa using h
    rw [natDigits_eq, if_pos h']
    simp
  | k + 1, n, h => by
    by_cases h10 : n < 10
    · rw [natDigits_eq, if_pos h10]
      simp
    · rw [natDigits_eq, if_neg h10, List.length_append]
      have hdiv : n / 10 < 10 ^ (k + 1) := by
        rw [pow_succ] at h
        omega
      have := natDigits_length_le k (n / 10) hdiv
      simp only [List.length_singleton]
      omega

/-- Auxiliary: digit-count lower bound of a rendered natural. -/
theorem natDigits_length_ge : ∀ (k n : Nat), 10 ^ k ≤ n →
    k + 1 ≤ (natDigits n).length
  | 0, n, _ => natDigits_len_ge1 n
  | k + 1, n, h => by
    have hk : (10 : Nat) ≤ 10 ^ (k + 1) := by
      calc (10 : Nat) = 10 ^ 1 := (pow_one 10).symm
      _ ≤ 10 ^ (k + 1) := Nat.pow_le_pow_right (by omega) (by omega)
    have h10 : ¬(n < 10) := by omega
    rw [natDigits_eq, if_neg h10, List.length_append]
    have hdiv : 10 ^ k ≤ n / 10 := by
      rw [pow_succ] at h
      omega
    have := natDigits_length_ge k (n / 10) hdiv
    simp only [List.length_singleton]
    omega

/-- Auxiliary: splitting a separator-free string. -/
theorem splitCh_no_sep (sep : Char) :
    ∀ l : Str, (∀ ch ∈ l, ¬(ch = sep)) → splitCh sep l = [l]
  | [], _ => rfl
  | x :: xs, h => by
    have hx : ¬(x = sep) := h x (List.mem_cons_self x xs)
    simp only [splitCh]
    rw [if_neg hx, splitCh_no_sep sep xs (fun ch hch => h ch (List.mem_cons_of_mem _ hch))]

/-- Auxiliary: splitting at the first separator after a separator-free
block. -/
theorem splitCh_append_sep (sep : Char) :
    ∀ (xs ys : Str), (∀ ch ∈ xs, ¬(ch = sep)) →
      splitCh sep (xs ++ sep :: ys) = xs :: splitCh sep ys
  | [], ys, _ => by
    show splitCh sep (sep :: ys) = [] :: splitCh sep ys
    simp only [splitCh]
    rw [if_pos trivial]
  | x :: xs, ys, h => by
    have hx : ¬(x = sep) := h x (List.mem_cons_self x xs)
    show splitCh sep (x :: (xs ++ sep :: ys)) = (x :: xs) :: splitCh sep ys
    simp only [splitCh]
    rw [if_neg hx, splitCh_append_sep sep xs ys
      (fun ch hch => h ch (List.mem_cons_of_mem _ hch))]

/-- Auxiliary: characters of a slashed date are digits or the slash. -/
theorem slashDate_chars (a b c : Nat) :
    ∀ ch ∈ slashDate a b c, ch.isDigit = true ∨ ch = '/' := by
  intro ch hch
  simp only [slashDate, List.mem_append, List.mem_cons] at hch
  rcases hch with ((h | (rfl | h)) | (rfl | h))
  · exact Or.inl (natDigits_all_digit a ch h)
  · exact Or.inr rfl
  · exact Or.inl (natDigits_all_digit b ch h)
  · exact Or.inr rfl
  · exact Or.inl (natDigits_all_digit c ch h)

/-- Auxiliary: the slash split of a slashed date is its three numerals. -/
theorem splitCh_slashDate (a b c : Nat) :
    splitCh '/' (slashDate a b c) = [natDigits a, natDigits b, natDigits c] := by
  have hnd : ∀ (n : Nat), ∀ ch ∈ natDigits n, ¬(ch = '/') := fun n ch hch hup =>
    absurd (hup ▸ natDigits_all_digit n ch hch) (by decide)
  have h1 : slashDate a b c =
      natDigits a ++ '/' :: (natDigits b ++ '/' :: natDigits c) := by
    simp [slashDate, List.append_assoc]
  rw [h1, splitCh_append_sep '/' _ _ (hnd a), splitCh_append_sep '/' _ _ (hnd b),
    splitCh_no_sep '/' _ (hnd c)]

/-- Auxiliary: `dropWhile` with an everywhere-false test. -/
theorem dropWhile_nosat (p : Char → Bool) (l : Str) (h : ∀ c ∈ l, p c = false) :
    l.dropWhile p = l := by
  cases l with
  | nil => rfl
  | cons x xs =>
    rw [List.dropWhile_cons, if_neg (by simp [h x (List.mem_cons_self x xs)])]

/-- Auxiliary: trimming fixes a whitespace-free string. -/
theorem trim_id_of_nospace (l : Str) (h : ∀ c ∈ l, isJsSpace c = false) :
    trim l = l := by
  simp only [trim]
  rw [dropWhile_nosat isJsSpace l h,
    dropWhile_nosat isJsSpace l.reverse (fun c hc => h c (List.mem_reverse.mp hc)),
    List.reverse_reverse]

/-- Auxiliary: the `Date`-constructor model on an ambiguous slashed date with
a four-digit year: it accepts exactly the in-range `M/D/Y` readings. -/
theorem jsNewDate_slash (a b c : Nat) (ha99 : a ≤ 99) (hb99 : b ≤ 99)
    (hc1 : 1000 ≤ c) (hc2 : c ≤ 9999) :
    jsNewDate (slashDate a b c) =
      if 1 ≤ a ∧ a ≤ 12 ∧ 1 ≤ b ∧ b ≤ 31 then some ((c : Int), (a : Int), (b : Int))
      else none := by
  have hp3 : (10 : Nat) ^ (3 + 1) = 10000 := by norm_num
  have hp2 : (10 : Nat) ^ 3 = 1000 := by norm_num
  have hlenC : (natDigits c).length = 4 :=
    le_antisymm (natDigits_length_le 3 c (by omega)) (natDigits_length_ge 3 c (by omega))
  have hlenA : (natDigits a).length ≤ 2 := natDigits_length_le 1 a (by norm_num; omega)
  have hlenB : (natDigits b).length ≤ 2 := natDigits_length_le 1 b (by norm_num; omega)
  have allA : (natDigits a).all Char.isDigit = true :=
    List.all_eq_true.mpr (natDigits_all_digit a)
  have allB : (natDigits b).all Char.isDigit = true :=
    List.all_eq_true.mpr (natDigits_all_digit b)
  have allC : (natDigits c).all Char.isDigit = true :=
    List.all_eq_true.mpr (natDigits_all_digit c)
  simp only [jsNewDate, splitCh_slashDate a b c]
  rw [if_pos ⟨allA, allB, allC, natDigits_len_ge1 a, hlenA, natDigits_len_ge1 b, hlenB,
    natDigits_len_ge1 c, by omega⟩]
  rw [natOfDigits_natDigits a, natOfDigits_natDigits b, natOfDigits_natDigits c,
    if_neg (show ¬((natDigits c).length ≤ 2) by omega)]

/-- Auxiliary: the slashed manual format always matches an ambiguous slashed
date with a four-digit year. -/
theorem matchSlashFmt_slash (a b c : Nat) (ha99 : a ≤ 99) (hb99 : b ≤ 99)
    (hc1 : 1000 ≤ c) (hc2 : c ≤ 9999) :
    matchSlashFmt (slashDate a b c) = some (a, b, natDigits c) := by
  have hp3 : (10 : Nat) ^ (3 + 1) = 10000 := by norm_num
  have hp2 : (10 : Nat) ^ 3 = 1000 := by norm_num
  have hlenC : (natDigits c).length = 4 :=
    le_antisymm (natDigits_length_le 3 c (by omega)) (natDigits_length_ge 3 c (by omega))
  have hlenA : (natDigits a).length ≤ 2 := natDigits_length_le 1 a (by norm_num; omega)
  have hlenB : (natDigits b).length ≤ 2 := natDigits_length_le 1 b (by norm_num; omega)
  have allA : (natDigits a).all Char.isDigit = true :=
    List.all_eq_true.mpr (natDigits_all_digit a)
  have allB : (natDigits b).all Char.isDigit = true :=
    List.all_eq_true.mpr (natDigits_all_digit b)
  have allC : (natDigits c).all Char.isDigit = true :=
    List.all_eq_true.mpr (natDigits_all_digit c)
  simp only [matchSlashFmt, splitCh_slashDate a b c]
  rw [if_pos ⟨allA, allB, allC, natDigits_len_ge1 a, hlenA, natDigits_len_ge1 b, hlenB,
    by omega, by omega⟩]
  rw [natOfDigits_natDigits a, natOfDigits_natDigits b]

/-- Auxiliary: the shared ambiguous-format tail on a four-digit year applies
the magnitude rule (both `≤ 12` branches of the code produce the same
month/day pair, so the rule collapses to a single test on the first
component). -/
theorem finishAmbiguous_slash (ctx : DateCtx) (a b c : Nat)
    (hc1 : 1000 ≤ c) (hc2 : c ≤ 9999) :
    finishAmbiguous ctx a b (natDigits c) =
      if 12 < a then mkDateISO (c : Int) (b : Int) (a : Int)
      else mkDateISO (c : Int) (a : Int) (b : Int) := by
  have hp3 : (10 : Nat) ^ (3 + 1) = 10000 := by norm_num
  have hp2 : (10 : Nat) ^ 3 = 1000 := by norm_num
  have hlenC : (natDigits c).length = 4 :=
    le_antisymm (natDigits_length_le 3 c (by omega)) (natDigits_length_ge 3 c (by omega))
  simp only [finishAmbiguous]
  rw [if_neg (show ¬((natDigits c).length = 2) by omega), natOfDigits_natDigits c]
  by_cases hA : 12 < a
  · rw [if_pos hA, if_pos hA]
    simp only [jsDateCtorISO]
    rw [if_neg (show ¬((0 : Int) ≤ (c : Int) ∧ (c : Int) ≤ 99) by omega)]
  · rw [if_neg hA, if_neg hA, ite_self]
    simp only [jsDateCtorISO]
    rw [if_neg (show ¬((0 : Int) ≤ (c : Int) ∧ (c : Int) ≤ 99) by omega)]

/-- C3.  First conjunct: on every ambiguous slashed date `a/b/c` (components
up to two digits, four-digit year), `parseDate` resolves the month/day by
magnitude — if the first component exceeds 12 it is the day (`DD/MM/YYYY`),
otherwise the first component is the month (`MM/DD/YYYY`, covering both the
"second component exceeds 12" case and the default); the `Date`-constructor
fast path and the manual format table agree on this outcome.  Remaining
conjuncts: the three concrete normalizations `13/01/2024 → 2024-01-13`,
`01/13/2024 → 2024-01-13`, `01/02/2024 → 2024-01-02`. -/
theorem c3_date_disambiguation :
    (∀ (ctx : DateCtx) (a b c : Nat), a ≤ 99 → b ≤ 99 → 1000 ≤ c → c ≤ 9999 →
        parseDate ctx (slashDate a b c) =
          if 12 < a then mkDateISO (c : Int) (b : Int) (a : Int)
          else mkDateISO (c : Int) (a : Int) (b : Int)) ∧
    parseDate ctx0 (str "13/01/2024") = str "2024-01-13" ∧
    parseDate ctx0 (str "01/13/2024") = str "2024-01-13" ∧
    parseDate ctx0 (str "01/02/2024") = str "2024-01-02" := by
  refine ⟨?_, by decide, by decide, by decide⟩
  intro ctx a b c ha99 hb99 hc1 hc2
  have hnospace : ∀ ch ∈ slashDate a b c, isJsSpace ch = false := by
    intro ch hch
    rcases slashDate_chars a b c ch hch with h | rfl
    · exact isJsSpace_digit h
    · decide
  have hne : slashDate a b c ≠ [] := by
    simp [slashDate]
  have htrim := trim_id_of_nospace _ hnospace
  simp only [parseDate]
  rw [if_neg hne, htrim, jsNewDate_slash a b c ha99 hb99 hc1 hc2]
  by_cases hok : 1 ≤ a ∧ a ≤ 12 ∧ 1 ≤ b ∧ b ≤ 31
  · rw [if_pos hok, if_neg (show ¬(12 < a) by omega)]
  · rw [if_neg hok, matchSlashFmt_slash a b c ha99 hb99 hc1 hc2]
    show finishAmbiguous ctx a b (natDigits c) =
      if 12 < a then mkDateISO (c : Int) (b : Int) (a : Int)
      else mkDateISO (c : Int) (a : Int) (b : Int)
    exact finishAmbiguous_slash ctx a b c hc1 hc2

/-- C3 witness: the universal disambiguation rule at `13/1/2024` (first
component exceeds 12, hence day 13, month 1). -/
theorem c3_date_disambiguation_w :
    parseDate ctx0 (slashDate 13 1 2024) = mkDateISO (2024 : Int) (1 : Int) (13 : Int) := by
  have h := c3_date_disambiguation.1 ctx0 13 1 2024 (by decide) (by decide)
    (by decide) (by decide)
  rw [h, if_pos (by omega : 12 < 13)]
  norm_num
